import Mathlib

/-!
# Verification of the brotli match-finder core (`src/enc/hash.h`)

This file gives a shallow embedding, in Lean 4, of the match-finder core of the
brotli encoder found in `src/enc/hash.h` (together with the unaligned-load
helpers of `port.h`), and proves or refutes the frozen specification claims
about it.

Modelling conventions:

* Machine integers are modelled as `ℕ` (unsigned) or `ℤ` (signed), with
  explicit `% 2^32`, `% 2^16`, ... wherever C++ wraparound can occur.
* The ring buffer and all collaborator tables (static dictionary, dictionary
  hash table, ...) are modelled as total functions `ℕ → ℕ`; the matcher never
  mutates them.
* Ring-buffer masks and window masks are powers of two minus one in the
  program (`mask = 2^lgwin - 1`), so `x & mask` is modelled as `x % 2^lgwin`;
  likewise `x & (2^k - 1)` is `x % 2^k`, `v & 31` is `v % 32`, `v >> 5` is
  `v / 32`.
* `double` scores are embedded ×100 as exact integers (`ℤ`): the scoring
  constants `5.4`, `1.20` and the short-code cost table are exact decimals
  with two digits, so this rescaling preserves every comparison and
  equality the code performs; `5.4 * len` becomes `540 * len`, the cost
  `0.95` becomes `95`, and so on.
-/

namespace BrotliHash

/-- Little-endian 16-bit load from a byte stream (`BROTLI_UNALIGNED_LOAD16`,
little-endian build). -/
def load16 (data : ℕ → ℕ) (p : ℕ) : ℕ :=
  data p + 256 * data (p + 1)

/-- Little-endian 32-bit load from a byte stream (`BROTLI_UNALIGNED_LOAD32`,
little-endian build). -/
def load32 (data : ℕ → ℕ) (p : ℕ) : ℕ :=
  data p + 256 * data (p + 1) + 256 ^ 2 * data (p + 2) + 256 ^ 3 * data (p + 3)

/-- Little-endian 64-bit load from a byte stream (`BROTLI_UNALIGNED_LOAD64`,
little-endian build). -/
def load64 (data : ℕ → ℕ) (p : ℕ) : ℕ :=
  data p + 256 * data (p + 1) + 256 ^ 2 * data (p + 2) + 256 ^ 3 * data (p + 3)
    + 256 ^ 4 * data (p + 4) + 256 ^ 5 * data (p + 5)
    + 256 ^ 6 * data (p + 6) + 256 ^ 7 * data (p + 7)

/-- `BROTLI_LOADED_U32_TO_U24` on a little-endian host: `v & 0xFFFFFF`. -/
def u32ToU24 (v : ℕ) : ℕ := v % 2 ^ 24

/-- `BROTLI_LOADED_U32_TO_U16` on a little-endian host: `v & 0xFFFF`. -/
def u32ToU16 (v : ℕ) : ℕ := v % 2 ^ 16

/-- `a - b` in 32-bit unsigned arithmetic, for arbitrary naturals
(the second operand is first reduced to its `uint32` value). -/
def sub32 (a b : ℕ) : ℕ := (a + 2 ^ 32 - b % 2 ^ 32) % 2 ^ 32

/-- Modelled from the spec: `FindMatchLengthWithLimit(s1, s2, limit)`
(`find_match_length.h`, which is not part of the sources) returns the length
of the longest common prefix of the two byte sequences, at most `limit`. -/
def findMatchLengthWithLimit (s1 s2 : ℕ → ℕ) : ℕ → ℕ
  | 0 => 0
  | limit + 1 =>
      if s1 0 = s2 0 then
        findMatchLengthWithLimit (fun k => s1 (k + 1)) (fun k => s2 (k + 1)) limit + 1
      else 0

/-- The byte sequence starting `off` bytes into `data`. -/
def seqFrom (data : ℕ → ℕ) (off : ℕ) : ℕ → ℕ := fun k => data (off + k)

/-- `⌊log2 n⌋` by repeated halving (`fuel` is ample at `n`). -/
def log2Aux : ℕ → ℕ → ℕ
  | 0, _ => 0
  | fuel + 1, n => if n ≤ 1 then 0 else log2Aux fuel (n / 2) + 1

/-- Modelled from the spec: `Log2Floor` (`fast_log.h`, not part of the
sources): `⌊log2 n⌋` for `n ≥ 1`, and `-1` for `n = 0`. -/
def log2Floor (n : ℕ) : ℤ :=
  if n = 0 then -1 else (log2Aux n n : ℤ)

/-- The hash multiplier `kHashMul32 = 0x1e35a7bd`. -/
def kHashMul32 : ℕ := 0x1e35a7bd

/-- `BackwardReferenceScore(copy_length, backward_reference_offset)`:
`5.4 * copy_length - 1.20 * Log2Floor(backward_reference_offset)`, embedded
×100: `540 * copy_length - 120 * Log2Floor(...)`. -/
def backwardReferenceScore (copyLength : ℕ) (backward : ℕ) : ℤ :=
  540 * copyLength - 120 * log2Floor backward

/-- `kDistanceShortCodeBitCost[16]` ×100: the exact `double` table is
`{-0.6, 0.95, 1.17, 1.27, 0.93, 0.93, 0.96, 0.96, 0.99, 0.99, 1.05, 1.05,
1.15, 1.15, 1.25, 1.25}`. -/
def kDistanceShortCodeBitCost : List ℤ :=
  [-60, 95, 117, 127, 93, 93, 96, 96, 99, 99, 105, 105, 115, 115, 125, 125]

/-- `BackwardReferenceScoreUsingLastDistance(copy_length, distance_short_code)`,
embedded ×100. -/
def backwardReferenceScoreUsingLastDistance (copyLength : ℕ) (shortCode : ℕ) : ℤ :=
  540 * copyLength - kDistanceShortCodeBitCost.getD shortCode 0

/-- `kDistanceCacheIndex[16]`. -/
def kDistanceCacheIndex : List ℕ :=
  [0, 1, 2, 3, 0, 0, 0, 0, 0, 0, 1, 1, 1, 1, 1, 1]

/-- `kDistanceCacheOffset[16]`. -/
def kDistanceCacheOffset : List ℤ :=
  [0, 0, 0, 0, -1, 1, -2, 2, -3, 3, -1, 1, -2, 2, -3, 3]

/-- `kCutoffTransformsCount = 10`. -/
def kCutoffTransformsCount : ℕ := 10

/-- `kCutoffTransforms[]`. -/
def kCutoffTransforms : List ℕ := [0, 12, 27, 23, 42, 63, 56, 48, 59, 64]

/-- `kMaxZopfliLen = 325`. -/
def kMaxZopfliLen : ℕ := 325

/-- `Hash<kShiftBits>(data)` applied to an already-loaded 32-bit value:
`(load32(data) * kHashMul32) >> (32 - kShiftBits)` in `uint32` arithmetic. -/
def hashShift (shiftBits : ℕ) (v32 : ℕ) : ℕ :=
  (v32 * kHashMul32 % 2 ^ 32) >>> (32 - shiftBits)

/-- `HashLongestMatchQuickly::HashBytes` applied to an already-loaded 64-bit
value: `((load64(data) << 24) * kHashMul32) >> (64 - kBucketBits)` in
`uint64` arithmetic. -/
def hashBytesQuick (bucketBits : ℕ) (v64 : ℕ) : ℕ :=
  ((((v64 % 2 ^ 64) <<< 24) % 2 ^ 64) * kHashMul32 % 2 ^ 64) >>> (64 - bucketBits)

/-- `HashLongestMatch::HashBytes` applied to an already-loaded 32-bit value:
`(load32(data) * kHashMul32) >> (32 - kBucketBits)` in `uint32` arithmetic. -/
def hashBytesBlock (bucketBits : ℕ) (v32 : ℕ) : ℕ :=
  (v32 * kHashMul32 % 2 ^ 32) >>> (32 - bucketBits)

/-- `BT4_Matchfinder::Hash(seq, num_bits)`:
`(seq * kHashMul32) >> (32 - num_bits)` in `uint32` arithmetic. -/
def hashBT4 (seq : ℕ) (numBits : ℕ) : ℕ :=
  (seq * kHashMul32 % 2 ^ 32) >>> (32 - numBits)

/-- The static-dictionary hash key as the code computes it:
`Hash<14>(p) << 1` (both hashers, `hash.h` lines 258 and 454). -/
def dictKeyCode (v32 : ℕ) : ℕ := hashShift 14 v32 <<< 1

/-- Modelled from the spec's words (for the refinement claim C8):
`k = Hash<15>(p) & ~1` — the 15-bit hash with its lowest bit cleared by a
bitwise AND with the complement of 1 in `uint32`. -/
def dictKeySpec (v32 : ℕ) : ℕ := hashShift 15 v32 &&& (2 ^ 32 - 2)

/-! ## The quick hashers (`HashLongestMatchQuickly`, presets H1–H4)

`FindLongestMatch` is embedded as a function from the hasher state
(`buckets_`, the dictionary statistics counters), the collaborator tables,
the ring buffer and the call arguments to a result record holding the
returned boolean and the final values of the four in/out parameters.
The dictionary statistics counters only influence the probe gate
`num_dict_matches_ >= (num_dict_lookups_ >> 7)`; their increments inside the
probe are not observable through any of the claims and are not returned. -/

/-- The result of a `FindLongestMatch` call: the returned boolean and the
exit values of the four in/out parameters `*best_len_out`,
`*best_len_code_out`, `*best_distance_out`, `*best_score_out`.  `fromDict`
records whether the reported match was produced by the static-dictionary
probe (it synthesizes a distance beyond `max_backward`). -/
structure FLMResult where
  found : Bool
  outLen : ℕ
  outCode : ℕ
  outDist : ℤ
  outScore : ℤ
  fromDict : Bool
  deriving DecidableEq

/-- The accumulator threaded through `HashLongestMatchQuickly::FindLongestMatch`:
the local variables `match_found`, `best_score`, `best_len`, `compare_char`
and the current values of the four out-parameters. -/
structure QuickAcc where
  found : Bool
  bestScore : ℤ
  bestLen : ℕ
  compareChar : ℕ
  outLen : ℕ
  outCode : ℕ
  outDist : ℤ
  outScore : ℤ
  deriving DecidableEq

/-- One iteration of the `kBucketSweep > 1` probe loop of
`HashLongestMatchQuickly::FindLongestMatch` (hash.h lines 227–253), probing
the bucket entry `prevRaw`. -/
def quickSweepStep (data : ℕ → ℕ) (ringLog curIx curMasked maxLength maxBackward : ℕ)
    (prevRaw : ℕ) (acc : QuickAcc) : QuickAcc :=
  let backward := sub32 curIx prevRaw
  let prevM := prevRaw % 2 ^ 32 % 2 ^ ringLog
  if acc.compareChar ≠ data (prevM + acc.bestLen) then acc
  else if backward = 0 ∨ maxBackward < backward then acc
  else
    let len := findMatchLengthWithLimit (seqFrom data prevM) (seqFrom data curMasked) maxLength
    if 4 ≤ len then
      let score := backwardReferenceScore len backward
      if acc.bestScore < score then
        { found := true, bestScore := score, bestLen := len,
          compareChar := data (curMasked + len),
          outLen := len, outCode := len, outDist := (backward : ℤ), outScore := score }
      else acc
    else acc

/-- The static-dictionary probe of `HashLongestMatchQuickly::FindLongestMatch`
(hash.h lines 257–287): a single lookup in `kStaticDictionaryHash` at key
`Hash<14>(p) << 1`.  Returns `some (matchlen, len, backward, score)` when the
probe improves on `bestScore` (in which case the function writes the outputs
and returns true), `none` otherwise. -/
def quickDictProbe (dictHash dictBytes dictOffsets dictSizeBits : ℕ → ℕ)
    (data : ℕ → ℕ) (curMasked maxLength maxBackward : ℕ)
    (bestScore : ℤ) : Option (ℕ × ℕ × ℕ × ℤ) :=
  let key := dictKeyCode (load32 data curMasked)
  let v := dictHash key % 2 ^ 16
  if 0 < v then
    let len := v % 32
    let dist := v / 32
    let off := dictOffsets len + len * dist
    if len ≤ maxLength then
      let matchlen := findMatchLengthWithLimit (seqFrom data curMasked) (seqFrom dictBytes off) len
      if len < matchlen + kCutoffTransformsCount ∧ 0 < matchlen then
        let transformId := kCutoffTransforms.getD (len - matchlen) 0
        let wordId := transformId * 2 ^ dictSizeBits len + dist
        let backward := maxBackward + wordId + 1
        let score := backwardReferenceScore matchlen backward
        if bestScore < score then some (matchlen, len, backward, score) else none
      else none
    else none
  else none

/-- The common tail of `HashLongestMatchQuickly::FindLongestMatch`: the
gated static-dictionary probe followed by `return match_found`. -/
def quickDictTail (useDict : Bool) (numDictLookups numDictMatches : ℕ)
    (dictHash dictBytes dictOffsets dictSizeBits : ℕ → ℕ)
    (data : ℕ → ℕ) (curMasked maxLength maxBackward : ℕ)
    (acc : QuickAcc) : FLMResult :=
  if useDict = true ∧ acc.found = false ∧ numDictLookups >>> 7 ≤ numDictMatches then
    match quickDictProbe dictHash dictBytes dictOffsets dictSizeBits data curMasked maxLength
        maxBackward acc.bestScore with
    | some (matchlen, len, backward, score) =>
        ⟨true, matchlen, len, (backward : ℤ), score, true⟩
    | none => ⟨acc.found, acc.outLen, acc.outCode, acc.outDist, acc.outScore, false⟩
  else ⟨acc.found, acc.outLen, acc.outCode, acc.outDist, acc.outScore, false⟩

/-- The `distance_cache[0]` probe at the head of
`HashLongestMatchQuickly::FindLongestMatch` (hash.h lines 177–201):
`some len` when it accepts a match of length `len ≥ 4` (in which case the
function writes the outputs and, for sweep 1, returns true at once). -/
def quickHit1 (data : ℕ → ℕ) (ringLog : ℕ) (dc0 : ℤ) (curIx maxLength lenIn : ℕ) : Option ℕ :=
  let maskP := 2 ^ ringLog
  let curMasked := curIx % maskP
  -- `int backward = distance_cache[0]; size_t prev_ix = cur_ix - backward;`
  -- (32-bit unsigned subtraction, zero-extended)
  let prevIx0 : ℕ := (((curIx : ℤ) - dc0) % 2 ^ 32).toNat
  if prevIx0 < curIx then
    let prevM := prevIx0 % maskP
    if data (curMasked + lenIn) = data (prevM + lenIn) then
      let len := findMatchLengthWithLimit (seqFrom data prevM) (seqFrom data curMasked) maxLength
      if 4 ≤ len then some len else none
    else none
  else none

/-- `HashLongestMatchQuickly<kBucketBits, kBucketSweep, kUseDictionary>::FindLongestMatch`
(hash.h lines 162–290).

State and collaborator arguments: `buckets` is the `buckets_` array
(`uint32` entries), `numDictLookups`/`numDictMatches` the dictionary
statistics counters, `dictHash`/`dictBytes`/`dictOffsets`/`dictSizeBits`
the static-dictionary collaborator tables (`kStaticDictionaryHash`,
`kBrotliDictionary`, `kBrotliDictionaryOffsetsByLength`,
`kBrotliDictionarySizeBitsByLength`).

Call arguments: the ring buffer `data` with `ring_buffer_mask = 2^ringLog - 1`,
`distance_cache[0] = dc0` (only entry read), `cur_ix`, `max_length`,
`max_backward`, and the entry values of the four in/out parameters. -/
def quickFindLongestMatch (bucketBits sweep : ℕ) (useDict : Bool)
    (buckets : ℕ → ℕ) (numDictLookups numDictMatches : ℕ)
    (dictHash dictBytes dictOffsets dictSizeBits : ℕ → ℕ)
    (data : ℕ → ℕ) (ringLog : ℕ) (dc0 : ℤ)
    (curIx maxLength maxBackward : ℕ)
    (lenIn codeIn : ℕ) (distIn : ℤ) (scoreIn : ℤ) : FLMResult :=
  let maskP := 2 ^ ringLog
  let curMasked := curIx % maskP
  let key := hashBytesQuick bucketBits (load64 data curMasked)
  match quickHit1 data ringLog dc0 curIx maxLength lenIn with
  | some len =>
      let score := backwardReferenceScoreUsingLastDistance len 0
      if sweep = 1 then
        -- `if (kBucketSweep == 1) return true;`
        ⟨true, len, len, dc0, score, false⟩
      else
        -- `match_found = true;` and fall through to the sweep loop
        let acc0 : QuickAcc :=
          { found := true, bestScore := score, bestLen := len,
            compareChar := data (curMasked + len),
            outLen := len, outCode := len, outDist := dc0, outScore := score }
        let acc := (List.range sweep).foldl
          (fun a i => quickSweepStep data ringLog curIx curMasked maxLength maxBackward
            (buckets (key + i)) a) acc0
        quickDictTail useDict numDictLookups numDictMatches
          dictHash dictBytes dictOffsets dictSizeBits data curMasked maxLength maxBackward acc
  | none =>
      let acc0 : QuickAcc :=
        { found := false, bestScore := scoreIn, bestLen := lenIn,
          compareChar := data (curMasked + lenIn),
          outLen := lenIn, outCode := codeIn, outDist := distIn, outScore := scoreIn }
      if sweep = 1 then
        -- the single-slot path (hash.h lines 203–223)
        let prevRaw := buckets key % 2 ^ 32
        let backward := sub32 curIx prevRaw
        let prevM := prevRaw % maskP
        if data (curMasked + lenIn) ≠ data (prevM + lenIn) then
          ⟨false, lenIn, codeIn, distIn, scoreIn, false⟩
        else if backward = 0 ∨ maxBackward < backward then
          ⟨false, lenIn, codeIn, distIn, scoreIn, false⟩
        else
          let len := findMatchLengthWithLimit (seqFrom data prevM) (seqFrom data curMasked)
            maxLength
          if 4 ≤ len then
            ⟨true, len, len, (backward : ℤ), backwardReferenceScore len backward, false⟩
          else
            quickDictTail useDict numDictLookups numDictMatches
              dictHash dictBytes dictOffsets dictSizeBits data curMasked maxLength maxBackward acc0
      else
        let acc := (List.range sweep).foldl
          (fun a i => quickSweepStep data ringLog curIx curMasked maxLength maxBackward
            (buckets (key + i)) a) acc0
        quickDictTail useDict numDictLookups numDictMatches
          dictHash dictBytes dictOffsets dictSizeBits data curMasked maxLength maxBackward acc

/-! ## The block hashers (`HashLongestMatch`, presets H5–H9) -/

/-- The accumulator threaded through `HashLongestMatch::FindLongestMatch`:
`match_found`, `best_score`, `best_len` and the four out-parameters, plus the
`fromDict` marker for the dictionary path. -/
structure BlockAcc where
  found : Bool
  bestScore : ℤ
  bestLen : ℕ
  outLen : ℕ
  outCode : ℕ
  outDist : ℤ
  outScore : ℤ
  fromDict : Bool
  deriving DecidableEq

/-- Iteration `i` of the last-distance probe loop of
`HashLongestMatch::FindLongestMatch` (hash.h lines 381–416). -/
def blockDistStep (data : ℕ → ℕ) (ringLog curIx curMasked maxLength maxBackward : ℕ)
    (distCache : ℕ → ℤ) (i : ℕ) (acc : BlockAcc) : BlockAcc :=
  let maskP := 2 ^ ringLog
  let idx := kDistanceCacheIndex.getD i 0
  -- `const int backward = distance_cache[idx] + kDistanceCacheOffset[i];`
  let backward : ℤ := distCache idx + kDistanceCacheOffset.getD i 0
  -- `size_t prev_ix = cur_ix - backward;` (32-bit unsigned subtraction)
  let prevIx : ℕ := (((curIx : ℤ) - backward) % 2 ^ 32).toNat
  if curIx ≤ prevIx then acc
  -- `if (backward > max_backward) continue;` (`backward` converted to unsigned)
  else if (maxBackward : ℤ) < backward % 2 ^ 32 then acc
  else
    let prevM := prevIx % maskP
    if maskP - 1 < curMasked + acc.bestLen ∨ maskP - 1 < prevM + acc.bestLen ∨
        data (curMasked + acc.bestLen) ≠ data (prevM + acc.bestLen) then acc
    else
      let len := findMatchLengthWithLimit (seqFrom data prevM) (seqFrom data curMasked) maxLength
      if 3 ≤ len ∨ (len = 2 ∧ i < 2) then
        let score := backwardReferenceScoreUsingLastDistance len i
        if acc.bestScore < score then
          { found := true, bestScore := score, bestLen := len, outLen := len, outCode := len,
            outDist := backward, outScore := score, fromDict := false }
        else acc
      else acc

/-- The bucket scan of `HashLongestMatch::FindLongestMatch` (hash.h lines
417–452): `for (int i = num_[key] - 1; i >= down; --i)` with an early `break`
once `backward > max_backward`.  `fuel` is the remaining iteration count
`i - down + 1`; `bucket` is the row `buckets_[key]` (`int` entries). -/
def blockBucketLoop (data : ℕ → ℕ) (ringLog curIx curMasked maxLength maxBackward blockBits : ℕ)
    (bucket : ℕ → ℤ) : ℕ → ℕ → BlockAcc → BlockAcc
  | 0, _, acc => acc
  | fuel + 1, i, acc =>
    let maskP := 2 ^ ringLog
    let prevZ := bucket (i % 2 ^ blockBits)
    if 0 ≤ prevZ then
      let prevRaw := prevZ.toNat
      -- `const size_t backward = cur_ix - prev_ix;` (32-bit unsigned subtraction)
      let backward := sub32 curIx prevRaw
      if maxBackward < backward then acc     -- break
      else
        let prevM := prevRaw % maskP
        if maskP - 1 < curMasked + acc.bestLen ∨ maskP - 1 < prevM + acc.bestLen ∨
            data (curMasked + acc.bestLen) ≠ data (prevM + acc.bestLen) then
          blockBucketLoop data ringLog curIx curMasked maxLength maxBackward blockBits bucket
            fuel (i - 1) acc
        else
          let len := findMatchLengthWithLimit (seqFrom data prevM) (seqFrom data curMasked)
            maxLength
          if 4 ≤ len then
            let score := backwardReferenceScore len backward
            if acc.bestScore < score then
              blockBucketLoop data ringLog curIx curMasked maxLength maxBackward blockBits bucket
                fuel (i - 1)
                { found := true, bestScore := score, bestLen := len, outLen := len,
                  outCode := len, outDist := (backward : ℤ), outScore := score,
                  fromDict := false }
            else
              blockBucketLoop data ringLog curIx curMasked maxLength maxBackward blockBits bucket
                fuel (i - 1) acc
          else
            blockBucketLoop data ringLog curIx curMasked maxLength maxBackward blockBits bucket
              fuel (i - 1) acc
    else
      blockBucketLoop data ringLog curIx curMasked maxLength maxBackward blockBits bucket
        fuel (i - 1) acc

/-- One iteration (`k = 0` or `k = 1`, probing `key` or `key + 1`) of the
static-dictionary loop of `HashLongestMatch::FindLongestMatch` (hash.h lines
453–487). -/
def blockDictStep (dictHash dictBytes dictOffsets dictSizeBits : ℕ → ℕ)
    (data : ℕ → ℕ) (curMasked maxLength maxBackward : ℕ)
    (key : ℕ) (acc : BlockAcc) : BlockAcc :=
  let v := dictHash key % 2 ^ 16
  if 0 < v then
    let len := v % 32
    let dist := v / 32
    let off := dictOffsets len + len * dist
    if len ≤ maxLength then
      let matchlen := findMatchLengthWithLimit (seqFrom data curMasked) (seqFrom dictBytes off) len
      if len < matchlen + kCutoffTransformsCount ∧ 0 < matchlen then
        let transformId := kCutoffTransforms.getD (len - matchlen) 0
        let wordId := transformId * 2 ^ dictSizeBits len + dist
        let backward := maxBackward + wordId + 1
        let score := backwardReferenceScore matchlen backward
        if acc.bestScore < score then
          { found := true, bestScore := score, bestLen := matchlen, outLen := matchlen,
            outCode := len, outDist := (backward : ℤ), outScore := score, fromDict := true }
        else acc
      else acc
    else acc
  else acc

/-- `HashLongestMatch<kBucketBits, kBlockBits, kNumLastDistancesToCheck>::FindLongestMatch`
(hash.h lines 363–489).

State arguments: `num` is the `num_` array (`uint16` entries, read modulo
`2^16`), `buckets` the `buckets_` array (`int` entries), and the dictionary
statistics counters and collaborator tables as for the quick hasher.  The
ring buffer mask is `2^ringLog - 1`.  Note that the function unconditionally
writes `*best_len_code_out = 0` and `*best_len_out = 0` before probing. -/
def blockFLMAcc (bucketBits blockBits numLastDistances : ℕ)
    (num : ℕ → ℕ) (buckets : ℕ → ℕ → ℤ)
    (numDictLookups numDictMatches : ℕ)
    (dictHash dictBytes dictOffsets dictSizeBits : ℕ → ℕ)
    (data : ℕ → ℕ) (ringLog : ℕ) (distCache : ℕ → ℤ)
    (curIx maxLength maxBackward : ℕ)
    (lenIn : ℕ) (distIn : ℤ) (scoreIn : ℤ) : BlockAcc :=
  let maskP := 2 ^ ringLog
  let curMasked := curIx % maskP
  let acc0 : BlockAcc :=
    { found := false, bestScore := scoreIn, bestLen := lenIn, outLen := 0, outCode := 0,
      outDist := distIn, outScore := scoreIn, fromDict := false }
  let acc1 := (List.range numLastDistances).foldl
      (fun a i => blockDistStep data ringLog curIx curMasked maxLength maxBackward distCache i a)
      acc0
  let key := hashBytesBlock bucketBits (load32 data curMasked)
  let numKey := num key % 2 ^ 16
  let down := if 2 ^ blockBits < numKey then numKey - 2 ^ blockBits else 0
  let acc2 := blockBucketLoop data ringLog curIx curMasked maxLength maxBackward blockBits
      (buckets key) (numKey - down) (numKey - 1) acc1
  if acc2.found = false ∧ numDictLookups >>> 7 ≤ numDictMatches then
    let dkey := dictKeyCode (load32 data curMasked)
    blockDictStep dictHash dictBytes dictOffsets dictSizeBits data curMasked maxLength
      maxBackward (dkey + 1)
      (blockDictStep dictHash dictBytes dictOffsets dictSizeBits data curMasked maxLength
        maxBackward dkey acc2)
  else acc2

/-- See `blockFLMAcc` (the accumulator of the whole call); the function's
return value and out-parameters are its projections.  The entry value
`codeIn` of `*best_len_code_out` is dead: the function overwrites it with 0
on entry. -/
def blockFindLongestMatch (bucketBits blockBits numLastDistances : ℕ)
    (num : ℕ → ℕ) (buckets : ℕ → ℕ → ℤ)
    (numDictLookups numDictMatches : ℕ)
    (dictHash dictBytes dictOffsets dictSizeBits : ℕ → ℕ)
    (data : ℕ → ℕ) (ringLog : ℕ) (distCache : ℕ → ℤ)
    (curIx maxLength maxBackward : ℕ)
    (lenIn codeIn : ℕ) (distIn : ℤ) (scoreIn : ℤ) : FLMResult :=
  let a := blockFLMAcc bucketBits blockBits numLastDistances num buckets numDictLookups
    numDictMatches dictHash dictBytes dictOffsets dictSizeBits data ringLog distCache curIx
    maxLength maxBackward lenIn distIn scoreIn
  ⟨a.found, a.outLen, a.outCode, a.outDist, a.outScore, a.fromDict⟩

/-! ## `BackwardMatch` and the `FindAllMatches` models -/

/-- `BackwardMatch`: `distance` and the packed `length_and_code`
(`(len << 5) | (len == len_code ? 0 : len_code)`); since `len_code < 32` the
bitwise-or coincides with addition. -/
structure BMatch where
  distance : ℤ
  lengthAndCode : ℕ
  deriving DecidableEq

/-- `BackwardMatch(dist, len)`. -/
def BMatch.mk2 (dist : ℤ) (len : ℕ) : BMatch := ⟨dist, len * 32⟩

/-- `BackwardMatch(dist, len, len_code)`. -/
def BMatch.mk3 (dist : ℤ) (len code : ℕ) : BMatch :=
  ⟨dist, len * 32 + (if len = code then 0 else code)⟩

/-- `BackwardMatch::length()`: `length_and_code >> 5`. -/
def BMatch.length (m : BMatch) : ℕ := m.lengthAndCode / 32

/-- Modelled from the spec: `kMaxDictionaryMatchLen` (`static_dict.h`, not
part of the sources) — the collaborator's bound on static-dictionary match
lengths.  A dictionary hash entry decodes `len = entry & 31 ≤ 31` and the
cutoff transforms only shorten words, so the bound is far below
`kMaxZopfliLen = 325`; the reference collaborator uses 37. -/
def kMaxDictionaryMatchLen : ℕ := 37

/-- The dictionary pass shared by both `FindAllMatches` implementations
(hash.h lines 562–574 and 830–846): for each `l` from `minlen` to
`min(kMaxDictionaryMatchLen, max_length)`, append one match with distance
`distBase + (dict_id >> 5) + 1` and length code `dict_id & 31` whenever the
oracle-filled `dict_matches[l]` is below `kInvalidMatch`.  `dictFound` and
`dictTab` model the result of the collaborator call
`FindAllStaticDictionaryMatches` (`static_dict.h`, not part of the sources). -/
def famDictFold (dictFound : Bool) (dictTab : ℕ → ℕ) (kInvalid : ℕ)
    (distBase minlen maxLength : ℕ) (ms : List BMatch) : List BMatch :=
  if dictFound = true then
    (List.range' minlen (min kMaxDictionaryMatchLen maxLength + 1 - minlen)).foldl
      (fun acc l =>
        if dictTab l < kInvalid then
          acc ++ [BMatch.mk3 ((distBase + dictTab l / 32 + 1 : ℕ) : ℤ) l (dictTab l % 32)]
        else acc) ms
  else ms

/-- The result of a `FindAllMatches` call: the matches written into the
caller's array by this call, the final `best_len`, and the exit value of
`*num_matches`. -/
structure FAMResult where
  matchList : List BMatch
  bestLen : ℕ
  numOut : ℕ
  deriving DecidableEq

/-- The linear back-scan phase of `HashLongestMatch::FindAllMatches`
(hash.h lines 510–533): `for (int i = cur_ix - 1; i > stop && best_len <= 2;
--i)`, recording a match whenever it improves `best_len` and rewinding the
output to its start whenever the new length exceeds `kMaxZopfliLen`.
`fuel` bounds the iteration count (the loop condition is still re-checked
every iteration, so any `fuel ≥ cur_ix` gives the loop's exact behaviour). -/
def famBackScan (data : ℕ → ℕ) (ringLog curIx curMasked maxLength maxBackward stop : ℕ) :
    ℕ → ℕ → ℕ → List BMatch → ℕ × List BMatch
  | 0, _, bestLen, ms => (bestLen, ms)
  | fuel + 1, i, bestLen, ms =>
    if stop < i ∧ bestLen ≤ 2 then
      let backward := curIx - i
      if maxBackward < backward then (bestLen, ms)    -- break
      else
        let prevM := i % 2 ^ ringLog
        if data curMasked ≠ data prevM ∨ data (curMasked + 1) ≠ data (prevM + 1) then
          famBackScan data ringLog curIx curMasked maxLength maxBackward stop fuel (i - 1)
            bestLen ms
        else
          let len := findMatchLengthWithLimit (seqFrom data prevM) (seqFrom data curMasked)
            maxLength
          if bestLen < len then
            famBackScan data ringLog curIx curMasked maxLength maxBackward stop fuel (i - 1)
              len ((if kMaxZopfliLen < len then [] else ms) ++ [BMatch.mk2 (backward : ℤ) len])
          else
            famBackScan data ringLog curIx curMasked maxLength maxBackward stop fuel (i - 1)
              bestLen ms
    else (bestLen, ms)

/-- The bucket-scan phase of `HashLongestMatch::FindAllMatches` (hash.h lines
534–561): like the bucket scan of `FindLongestMatch` but keeping every match
that improves `best_len`, with the same rewind rule. -/
def famBucketScan (data : ℕ → ℕ) (ringLog curIx curMasked maxLength maxBackward blockBits : ℕ)
    (bucket : ℕ → ℤ) : ℕ → ℕ → ℕ → List BMatch → ℕ × List BMatch
  | 0, _, bestLen, ms => (bestLen, ms)
  | fuel + 1, i, bestLen, ms =>
    let maskP := 2 ^ ringLog
    let prevZ := bucket (i % 2 ^ blockBits)
    if 0 ≤ prevZ then
      let prevRaw := prevZ.toNat
      let backward := sub32 curIx prevRaw
      if maxBackward < backward then (bestLen, ms)    -- break
      else
        let prevM := prevRaw % maskP
        if maskP - 1 < curMasked + bestLen ∨ maskP - 1 < prevM + bestLen ∨
            data (curMasked + bestLen) ≠ data (prevM + bestLen) then
          famBucketScan data ringLog curIx curMasked maxLength maxBackward blockBits bucket
            fuel (i - 1) bestLen ms
        else
          let len := findMatchLengthWithLimit (seqFrom data prevM) (seqFrom data curMasked)
            maxLength
          if bestLen < len then
            famBucketScan data ringLog curIx curMasked maxLength maxBackward blockBits bucket
              fuel (i - 1) len
              ((if kMaxZopfliLen < len then [] else ms) ++ [BMatch.mk2 (backward : ℤ) len])
          else
            famBucketScan data ringLog curIx curMasked maxLength maxBackward blockBits bucket
              fuel (i - 1) bestLen ms
    else
      famBucketScan data ringLog curIx curMasked maxLength maxBackward blockBits bucket
        fuel (i - 1) bestLen ms

/-- `HashLongestMatch<kBucketBits, kBlockBits, _>::FindAllMatches`
(hash.h lines 500–576).  Note the final `*num_matches += matches -
orig_matches`: the count of this call is *added* to the entry value
`numMatchesIn`. -/
def blockFindAllMatches (bucketBits blockBits : ℕ)
    (num : ℕ → ℕ) (buckets : ℕ → ℕ → ℤ)
    (dictFound : Bool) (dictTab : ℕ → ℕ) (kInvalid : ℕ)
    (data : ℕ → ℕ) (ringLog curIx maxLength maxBackward : ℕ)
    (numMatchesIn : ℕ) : FAMResult :=
  let maskP := 2 ^ ringLog
  let curMasked := curIx % maskP
  -- `int stop = cur_ix - 64; if (stop < 0) stop = 0;` (ℕ subtraction clamps)
  let stop := curIx - 64
  let p1 := famBackScan data ringLog curIx curMasked maxLength maxBackward stop curIx
    (curIx - 1) 1 []
  let key := hashBytesBlock bucketBits (load32 data curMasked)
  let numKey := num key % 2 ^ 16
  let down := if 2 ^ blockBits < numKey then numKey - 2 ^ blockBits else 0
  let p2 := famBucketScan data ringLog curIx curMasked maxLength maxBackward blockBits
    (buckets key) (numKey - down) (numKey - 1) p1.1 p1.2
  -- `int minlen = std::max<int>(4, best_len + 1);`
  let ms3 := famDictFold dictFound dictTab kInvalid maxBackward (max 4 (p2.1 + 1)) maxLength p2.2
  ⟨ms3, p2.1, numMatchesIn + ms3.length⟩

/-! ## The binary-tree matchfinder (`BT4_Matchfinder`, preset H10)

The state is the pair of arrays `hash_tabs_` and `child_tab_`, modelled as
total functions `ℕ → ℕ` holding `uint32` values.  `AdvanceOneByte` returns,
besides the matches and the updated arrays, the list `written` of
`child_tab_` indices assigned during the call (newest first) and
`bestLenRet = some l` when the call wrote `*best_len_ret = l` (`none` on the
return paths that leave `*best_len_ret` unwritten). -/

/-- The static context of one `BT4_Matchfinder::AdvanceOneByte` call:
`window_mask_ = 2^wLog - 1`, `ring_buffer_mask = 2^rLog - 1`, the nice length
`nice_len = min(nice_length_, max_length)`, and the entry value of the
`matches` pointer (`orig_matches`), which the nice-length shortcut rewinds
to. -/
structure BT4Ctx where
  wLog : ℕ
  rLog : ℕ
  data : ℕ → ℕ
  curIx : ℕ
  maxLength : ℕ
  niceLen : ℕ
  record : Bool
  origMatches : List BMatch

/-- `window_mask_` as a `uint32` value. -/
def BT4Ctx.wMask (c : BT4Ctx) : ℕ := (2 ^ c.wLog - 1) % 2 ^ 32

/-- The sentinel child value `-window_mask_` (as `uint32`). -/
def BT4Ctx.sentinel (c : BT4Ctx) : ℕ := sub32 0 c.wMask

/-- The window check `cur_ix - prev_ix > window_mask_ - 15` (all `uint32`). -/
def BT4Ctx.windowFail (c : BT4Ctx) (prevIx : ℕ) : Prop :=
  sub32 c.wMask 15 < sub32 c.curIx prevIx

instance (c : BT4Ctx) (prevIx : ℕ) : Decidable (c.windowFail prevIx) := by
  unfold BT4Ctx.windowFail; infer_instance

/-- The result of `BT4_Matchfinder::AdvanceOneByte`. -/
structure BT4Result where
  matchList : List BMatch
  hashTabs : ℕ → ℕ
  childTab : ℕ → ℕ
  written : List ℕ
  bestLenRet : Option ℕ

/-- The mutable state of one iteration of the tree-descent loop of
`BT4_Matchfinder::AdvanceOneByte`: the locals `prev_ix`, `len`, `best_len`,
`best_lt_len`, `best_gt_len`, the two pending child-slot pointers (as
`child_tab_` indices), the matches pointer, `child_tab_` itself and the
write log. -/
structure BT4LoopState where
  prevIx : ℕ
  len : ℕ
  bestLen : ℕ
  bestLtLen : ℕ
  bestGtLen : ℕ
  pendLt : ℕ
  pendGt : ℕ
  ms : List BMatch
  ct : ℕ → ℕ
  w : List ℕ

/-- The first half of the loop body (hash.h lines 751–775): byte comparison
at `len`, extension by `FindMatchLengthWithLimit`, match recording and the
nice-length shortcut (`Sum.inl` = the function returns here, with the
current node's children spliced into the two pending slots; `Sum.inr` =
fall through to the descent step with updated `len`/`best_len`/matches). -/
def bt4Step1 (c : BT4Ctx) (ht : ℕ → ℕ) (s : BT4LoopState) : BT4Result ⊕ BT4LoopState :=
  let strAt := seqFrom c.data (c.curIx % 2 ^ c.rLog)
  let matchAt := seqFrom c.data (s.prevIx % 2 ^ c.rLog)
  let pairBase := 2 * (s.prevIx % 2 ^ c.wLog)
  if matchAt s.len = strAt s.len then
    -- `len++; len += FindMatchLengthWithLimit(strptr + len, matchptr + len,
    --  max_length - len);` (the limit uses `uint32` subtraction)
    let len1 := s.len + 1 +
      findMatchLengthWithLimit (fun k => strAt (s.len + 1 + k))
        (fun k => matchAt (s.len + 1 + k)) (sub32 c.maxLength (s.len + 1))
    if c.record = false then
      if c.niceLen ≤ len1 then
        let ct1 := Function.update s.ct s.pendLt (s.ct pairBase)
        let ct2 := Function.update ct1 s.pendGt (ct1 (pairBase + 1))
        Sum.inl ⟨s.ms, ht, ct2, s.pendGt :: s.pendLt :: s.w, none⟩
      else Sum.inr { s with len := len1 }
    else
      if s.bestLen < len1 then
        if c.niceLen ≤ len1 then
          -- `matches = orig_matches; *matches++ = ...;` then splice and return
          let ct1 := Function.update s.ct s.pendLt (s.ct pairBase)
          let ct2 := Function.update ct1 s.pendGt (ct1 (pairBase + 1))
          Sum.inl ⟨c.origMatches ++ [BMatch.mk2 (sub32 c.curIx s.prevIx : ℤ) len1], ht, ct2,
            s.pendGt :: s.pendLt :: s.w, some len1⟩
        else
          Sum.inr
            { s with
              len := len1, bestLen := len1,
              ms := s.ms ++ [BMatch.mk2 (sub32 c.curIx s.prevIx : ℤ) len1] }
      else Sum.inr { s with len := len1 }
  else Sum.inr s

/-- The second half of the loop body (hash.h lines 777–800): the descent
direction (writing `prev_ix` into the pending slot on that side and
advancing the pending pointer into the visited node's pair — reads happen
after the write, exactly as in the source), followed by the bottom check
`cur_ix - prev_ix > window_mask_ - 15 || --depth_remaining == 0`
(`depthDone` is the decremented-counter-is-zero flag; `Sum.inl` = write the
sentinels and return, `Sum.inr` = next iteration's state). -/
def bt4Step2 (c : BT4Ctx) (ht : ℕ → ℕ) (depthDone : Bool) (s : BT4LoopState) :
    BT4Result ⊕ BT4LoopState :=
  let strAt := seqFrom c.data (c.curIx % 2 ^ c.rLog)
  let matchAt := seqFrom c.data (s.prevIx % 2 ^ c.rLog)
  let pairBase := 2 * (s.prevIx % 2 ^ c.wLog)
  if matchAt s.len < strAt s.len then
    let ct1 := Function.update s.ct s.pendLt s.prevIx
    let pendLt1 := pairBase + 1
    let prevIx1 := ct1 pendLt1
    if c.windowFail prevIx1 ∨ depthDone = true then
      let ct2 := Function.update ct1 pendLt1 c.sentinel
      let ct3 := Function.update ct2 s.pendGt c.sentinel
      Sum.inl ⟨s.ms, ht, ct3, s.pendGt :: pendLt1 :: s.pendLt :: s.w, some s.bestLen⟩
    else
      Sum.inr
        { prevIx := prevIx1, len := min s.len s.bestGtLen, bestLen := s.bestLen,
          bestLtLen := s.len, bestGtLen := s.bestGtLen, pendLt := pendLt1,
          pendGt := s.pendGt, ms := s.ms, ct := ct1, w := s.pendLt :: s.w }
  else
    let ct1 := Function.update s.ct s.pendGt s.prevIx
    let pendGt1 := pairBase
    let prevIx1 := ct1 pendGt1
    if c.windowFail prevIx1 ∨ depthDone = true then
      let ct2 := Function.update ct1 s.pendLt c.sentinel
      let ct3 := Function.update ct2 pendGt1 c.sentinel
      Sum.inl ⟨s.ms, ht, ct3, pendGt1 :: s.pendLt :: s.pendGt :: s.w, some s.bestLen⟩
    else
      Sum.inr
        { prevIx := prevIx1, len := min s.len s.bestLtLen, bestLen := s.bestLen,
          bestLtLen := s.bestLtLen, bestGtLen := s.len, pendLt := s.pendLt,
          pendGt := pendGt1, ms := s.ms, ct := ct1, w := s.pendGt :: s.w }

/-- The tree-descent loop of `BT4_Matchfinder::AdvanceOneByte` (hash.h lines
746–801).  `fuel` plays the role of `depth_remaining`: an iteration entered
with `fuel + 1` passes `fuel == 0` as the `--depth_remaining == 0` flag of
its bottom check; the `fuel = 0` equation writes the sentinels (it is only
reached when the matchfinder is constructed with `max_search_depth_ = 0`,
outside the documented contract `max_search_depth_ ≥ 1`). -/
def bt4Loop (c : BT4Ctx) (ht : ℕ → ℕ) : ℕ → BT4LoopState → BT4Result
  | 0, s =>
      let ct1 := Function.update s.ct s.pendLt c.sentinel
      let ct2 := Function.update ct1 s.pendGt c.sentinel
      ⟨s.ms, ht, ct2, s.pendGt :: s.pendLt :: s.w, some s.bestLen⟩
  | fuel + 1, s =>
      match bt4Step1 c ht s with
      | Sum.inl r => r
      | Sum.inr s1 =>
          match bt4Step2 c ht (fuel == 0) s1 with
          | Sum.inl r => r
          | Sum.inr s2 => bt4Loop c ht fuel s2

/-- `BT4_Matchfinder<kHash2Log, kHash3Log, kHash4Log>::AdvanceOneByte`
(hash.h lines 669–802), for a matchfinder constructed with window
`window_mask_ = 2^wLog - 1`, depth limit `maxSearchDepth` and nice length
`niceLength`. -/
def bt4AdvanceOneByte (h2Log h3Log : ℕ) (h4Log : ℕ) (wLog rLog : ℕ)
    (maxSearchDepth niceLength : ℕ)
    (data : ℕ → ℕ) (curIx maxLength : ℕ) (record : Bool)
    (ms0 : List BMatch) (ht ct : ℕ → ℕ) : BT4Result :=
  -- `if (PREDICT_FALSE(max_length < nice_length_)) return matches;`
  if maxLength < niceLength then ⟨ms0, ht, ct, [], none⟩
  else
    let c : BT4Ctx := ⟨wLog, rLog, data, curIx, maxLength, min niceLength maxLength, record, ms0⟩
    let strP := curIx % 2 ^ rLog
    let seq4 := load32 data strP
    let seq3 := u32ToU24 seq4
    let seq2 := u32ToU16 seq4
    -- length-2 match (hash bucket only)
    let hash2 := hashBT4 seq2 h2Log
    let prev2 := ht hash2 % 2 ^ 32
    let ht1 := Function.update ht hash2 curIx
    let ms1 := if record = true ∧ sub32 curIx prev2 ≤ sub32 c.wMask 15 ∧
                  seq2 = load16 data (prev2 % 2 ^ rLog)
               then ms0 ++ [BMatch.mk2 (sub32 curIx prev2 : ℤ) 2] else ms0
    -- length-3 match (hash bucket only)
    let hash3 := hashBT4 seq3 h3Log
    let prev3 := ht1 (2 ^ h2Log + hash3) % 2 ^ 32
    let ht2 := Function.update ht1 (2 ^ h2Log + hash3) curIx
    let ms2 := if record = true ∧ sub32 curIx prev3 ≤ sub32 c.wMask 15 ∧
                  seq3 = u32ToU24 (load32 data (prev3 % 2 ^ rLog))
               then ms1 ++ [BMatch.mk2 (sub32 curIx prev3 : ℤ) 3] else ms1
    -- length-4+ matches (binary tree)
    let hash4 := hashBT4 seq4 h4Log
    let prev4 := ht2 (2 ^ h2Log + 2 ^ h3Log + hash4) % 2 ^ 32
    let ht3 := Function.update ht2 (2 ^ h2Log + 2 ^ h3Log + hash4) curIx
    let pendLt := 2 * (curIx % 2 ^ wLog)
    let pendGt := 2 * (curIx % 2 ^ wLog) + 1
    if c.windowFail prev4 then
      let ct1 := Function.update ct pendLt c.sentinel
      let ct2 := Function.update ct1 pendGt c.sentinel
      ⟨ms2, ht3, ct2, [pendGt, pendLt], some 3⟩
    else
      bt4Loop c ht3 maxSearchDepth ⟨prev4, 0, 3, 0, 0, pendLt, pendGt, ms2, ct, []⟩

/-- `BT4_Matchfinder::FindAllMatches` (hash.h lines 817–849).
`uninitBestLen` models the indeterminate value of the local `best_len` when
`AdvanceOneByte` returns without writing `*best_len_ret`.  Note the final
`*num_matches = matches - orig_matches`: the exit value ignores the entry
value `numMatchesIn`. -/
def bt4FindAllMatches (h2Log h3Log : ℕ) (h4Log : ℕ) (wLog rLog : ℕ)
    (maxSearchDepth niceLength : ℕ)
    (dictFound : Bool) (dictTab : ℕ → ℕ) (kInvalid : ℕ)
    (uninitBestLen : ℕ)
    (data : ℕ → ℕ) (curIx maxLength : ℕ) (ht ct : ℕ → ℕ)
    (numMatchesIn : ℕ) : FAMResult :=
  let r := bt4AdvanceOneByte h2Log h3Log h4Log wLog rLog maxSearchDepth niceLength data curIx
    maxLength true [] ht ct
  let bestLen := r.bestLenRet.getD uninitBestLen
  let distBase := min curIx (sub32 ((2 ^ wLog - 1) % 2 ^ 32) 15)
  let ms := famDictFold dictFound dictTab kInvalid distBase (bestLen + 1) maxLength r.matchList
  ⟨ms, bestLen, ms.length⟩

/-! ## `Store` state for the block hashers, and the custom-dictionary warm-up -/

/-- The mutable state of a block hasher that `Store` touches: the `uint16`
counters `num_` and the `int` position ring `buckets_`. -/
structure BlockHashState where
  num : ℕ → ℕ
  buckets : ℕ → ℕ → ℤ

/-- `HashLongestMatch::Store(data, ix)` (hash.h lines 340–345), applied to
the already-loaded 4 bytes `v32` at `data`:
`minor_ix = num_[key] & kBlockMask; buckets_[key][minor_ix] = ix; ++num_[key];`
with `num_` wrapping as `uint16`. -/
def blockStore (bucketBits blockBits : ℕ) (st : BlockHashState) (v32 : ℕ) (ix : ℤ) :
    BlockHashState :=
  let key := hashBytesBlock bucketBits v32
  let minor := st.num key % 2 ^ blockBits
  { num := Function.update st.num key ((st.num key + 1) % 2 ^ 16),
    buckets := fun k s => if k = key ∧ s = minor then ix else st.buckets k s }

/-- A sequence of `Store` calls, each given as `(v32, ix)`. -/
def blockStoreSeq (bucketBits blockBits : ℕ) (st : BlockHashState)
    (stores : List (ℕ × ℤ)) : BlockHashState :=
  stores.foldl (fun s p => blockStore bucketBits blockBits s p.1 p.2) st

/-- `HashLongestMatch::Reset()`: `memset(&num_[0], 0, sizeof(num_))`; the
`buckets_` array is left uninitialized (`b0`). -/
def blockResetState (b0 : ℕ → ℕ → ℤ) : BlockHashState := ⟨fun _ => 0, b0⟩

/-- `kHashTypeLength` of `HashLongestMatchQuickly` (8) and of
`HashLongestMatch` (4). -/
def kHashTypeLengthQuick : ℕ := 8

/-- See `kHashTypeLengthQuick`. -/
def kHashTypeLengthBlock : ℕ := 4

/-- `Hashers::WarmupHash(size, dict, hasher)` (hash.h lines 937–942), the
worker of `PrependCustomDictionary` for types 1–9, as the sequence of
`Store` calls it issues.  Each call is the pair `(o, i)` where `o` is the
offset into `dict` of the bytes handed to `Store` — the code passes `dict`
itself, so `o = 0` for every call — and `i` is the recorded position.  The
loop runs `for (size_t i = 0; i + kHashTypeLength - 1 < size; i++)`, i.e.
over `i ∈ [0, size - kHashTypeLength + 1)`. -/
def warmupHashCalls (hashTypeLength size : ℕ) : List (ℕ × ℕ) :=
  (List.range (size - (hashTypeLength - 1))).map fun i => (0, i)

/-- Modelled from the spec (claim C3's reading of the warm-up): one `Store`
per position `i ∈ [0, size - kHashTypeLength)`, each hashing the bytes
`dict[i..]` — i.e. the call sequence `(i, i)` over that range. -/
def specWarmupCalls (hashTypeLength size : ℕ) : List (ℕ × ℕ) :=
  (List.range (size - hashTypeLength)).map fun i => (i, i)

/-- `Hashers::PrependCustomDictionary` for `type = 10` (hash.h line 957):
the case is an empty `break` (marked `TODO`), so no `Store`/`SkipByte` call
is issued at all. -/
def prependCustomDictionaryType10Calls : List (ℕ × ℕ) := []

/-! ## General-purpose lemmas -/

theorem foldl_preserve {α β : Type} {P : β → Prop} {f : β → α → β}
    (h : ∀ b x, P b → P (f b x)) : ∀ (l : List α) (b : β), P b → P (l.foldl f b) := by
  intro l
  induction l with
  | nil => exact fun b hb => hb
  | cons x xs ih => exact fun b hb => ih _ (h b x hb)

theorem land_two_pow_sub_two (x : ℕ) (hx : x < 2 ^ 32) :
    x &&& (2 ^ 32 - 2) = 2 * (x / 2) := by
  apply Nat.eq_of_testBit_eq
  intro j
  rw [Nat.testBit_land]
  cases j with
  | zero =>
      have hm : (2 ^ 32 - 2 : ℕ).testBit 0 = false := by decide
      have hr : (2 * (x / 2)).testBit 0 = false := by
        rw [Nat.testBit_zero]
        simp [Nat.mul_mod_right]
      rw [hm, hr, Bool.and_false]
  | succ j =>
      have hr : (2 * (x / 2)).testBit (j + 1) = x.testBit (j + 1) := by
        rw [Nat.testBit_succ, Nat.testBit_succ, Nat.mul_div_cancel_left _ (by norm_num : (0:ℕ) < 2)]
      rw [hr]
      by_cases hb : x.testBit (j + 1) = true
      · have hj : j + 1 < 32 := by
          by_contra hc
          have : x < 2 ^ (j + 1) :=
            lt_of_lt_of_le hx (Nat.pow_le_pow_right (by norm_num) (by omega))
          rw [Nat.testBit_lt_two_pow this] at hb
          exact Bool.false_ne_true hb
        have hm : (2 ^ 32 - 2 : ℕ).testBit (j + 1) = true := by
          have h2 : (2 ^ 32 - 2 : ℕ) = 2 * (2 ^ 31 - 1) := by norm_num
          rw [h2, Nat.testBit_succ, Nat.mul_div_cancel_left _ (by norm_num : (0:ℕ) < 2),
            Nat.testBit_two_pow_sub_one]
          simpa using by omega
        rw [hb, hm]
        rfl
      · rw [Bool.not_eq_true] at hb
        rw [hb, Bool.false_and]

theorem two_mul_lor_one (m : ℕ) : 2 * m + 1 = (2 * m) ||| 1 := by
  apply Nat.eq_of_testBit_eq
  intro j
  rw [Nat.testBit_lor]
  cases j with
  | zero =>
      rw [Nat.testBit_zero, Nat.testBit_zero, Nat.testBit_zero]
      simp [Nat.mul_mod_right, Nat.add_mul_mod_self_left, Nat.mul_add_mod]
  | succ j =>
      rw [Nat.testBit_succ, Nat.testBit_succ, Nat.testBit_succ]
      have h1 : (2 * m + 1) / 2 = m := by omega
      have h2 : 2 * m / 2 = m := by omega
      have h3 : (1 : ℕ) / 2 = 0 := by norm_num
      rw [h1, h2, h3, Nat.zero_testBit, Bool.or_false]

/-! ## Claim C8 — the static-dictionary key and probe footprint -/

/-- C8: for every loaded 4-byte value, the dictionary key the code computes,
`Hash<14>(p) << 1`, equals the spec's `Hash<15>(p) & ~1`; the quick hasher's
dictionary probe reads `kStaticDictionaryHash` only at that key `k` (so two
tables agreeing at `k` give identical probe results), while the block
hashers' probe reads only the entries at `k` and `k + 1 = k | 1`. -/
theorem dictKey_refinement :
    (∀ v32 : ℕ, dictKeyCode v32 = dictKeySpec v32) ∧
    (∀ v32 : ℕ, dictKeyCode v32 + 1 = dictKeyCode v32 ||| 1) ∧
    (∀ (t₁ t₂ dictBytes dictOffsets dictSizeBits data : ℕ → ℕ)
       (curMasked maxLength maxBackward : ℕ) (bestScore : ℤ),
       t₁ (dictKeyCode (load32 data curMasked)) = t₂ (dictKeyCode (load32 data curMasked)) →
       quickDictProbe t₁ dictBytes dictOffsets dictSizeBits data curMasked maxLength
           maxBackward bestScore
         = quickDictProbe t₂ dictBytes dictOffsets dictSizeBits data curMasked maxLength
           maxBackward bestScore) ∧
    (∀ (t₁ t₂ dictBytes dictOffsets dictSizeBits data : ℕ → ℕ)
       (curMasked maxLength maxBackward : ℕ) (a : BlockAcc),
       t₁ (dictKeyCode (load32 data curMasked)) = t₂ (dictKeyCode (load32 data curMasked)) →
       t₁ (dictKeyCode (load32 data curMasked) + 1) =
         t₂ (dictKeyCode (load32 data curMasked) + 1) →
       blockDictStep t₁ dictBytes dictOffsets dictSizeBits data curMasked maxLength maxBackward
           (dictKeyCode (load32 data curMasked) + 1)
           (blockDictStep t₁ dictBytes dictOffsets dictSizeBits data curMasked maxLength
             maxBackward (dictKeyCode (load32 data curMasked)) a)
         = blockDictStep t₂ dictBytes dictOffsets dictSizeBits data curMasked maxLength
           maxBackward (dictKeyCode (load32 data curMasked) + 1)
           (blockDictStep t₂ dictBytes dictOffsets dictSizeBits data curMasked maxLength
             maxBackward (dictKeyCode (load32 data curMasked)) a)) := by
  refine ⟨?_, ?_, ?_, ?_⟩
  · intro v
    unfold dictKeyCode dictKeySpec hashShift
    have hlt : (v * kHashMul32 % 2 ^ 32) >>> (32 - 15) < 2 ^ 32 := by
      rw [Nat.shiftRight_eq_div_pow]
      exact lt_of_le_of_lt (Nat.div_le_self _ _) (Nat.mod_lt _ (by norm_num))
    rw [land_two_pow_sub_two _ hlt, Nat.shiftLeft_eq, Nat.shiftRight_eq_div_pow,
      Nat.shiftRight_eq_div_pow, Nat.div_div_eq_div_mul]
    norm_num [Nat.mul_comm]
  · intro v
    unfold dictKeyCode
    rw [Nat.shiftLeft_eq, pow_one, Nat.mul_comm]
    exact two_mul_lor_one _
  · intro t₁ t₂ dictBytes dictOffsets dictSizeBits data curMasked maxLength maxBackward
      bestScore h
    simp only [quickDictProbe]
    rw [h]
  · intro t₁ t₂ dictBytes dictOffsets dictSizeBits data curMasked maxLength maxBackward a h0 h1
    have hfst : ∀ b : BlockAcc,
        blockDictStep t₁ dictBytes dictOffsets dictSizeBits data curMasked maxLength maxBackward
          (dictKeyCode (load32 data curMasked)) b
        = blockDictStep t₂ dictBytes dictOffsets dictSizeBits data curMasked maxLength
          maxBackward (dictKeyCode (load32 data curMasked)) b := by
      intro b
      simp only [blockDictStep]
      rw [h0]
    have hsnd : ∀ b : BlockAcc,
        blockDictStep t₁ dictBytes dictOffsets dictSizeBits data curMasked maxLength maxBackward
          (dictKeyCode (load32 data curMasked) + 1) b
        = blockDictStep t₂ dictBytes dictOffsets dictSizeBits data curMasked maxLength
          maxBackward (dictKeyCode (load32 data curMasked) + 1) b := by
      intro b
      simp only [blockDictStep]
      rw [h1]
    rw [hfst, hsnd]

/-- Witness for C8 at a concrete input. -/
theorem dictKey_refinement_witness :
    dictKeyCode 1 = dictKeySpec 1 ∧
    quickDictProbe (fun _ => 3) (fun _ => 0) (fun _ => 0) (fun _ => 0) (fun _ => 0) 0 5 5 0
      = quickDictProbe (fun k => if k = dictKeyCode 0 then 3 else 7) (fun _ => 0) (fun _ => 0)
        (fun _ => 0) (fun _ => 0) 0 5 5 0 := by
  refine ⟨dictKey_refinement.1 1, ?_⟩
  exact dictKey_refinement.2.2.1 (fun _ => 3) (fun k => if k = dictKeyCode 0 then 3 else 7)
    (fun _ => 0) (fun _ => 0) (fun _ => 0) (fun _ => 0) 0 5 5 0 (by decide)

/-! ## Claim C3 — the custom-dictionary warm-up -/

/-- C3 (evaluation at the failing input `type = 5`, `size = 6`): the code's
warm-up issues three `Store` calls `(0,0), (0,1), (0,2)`, every one hashing
the bytes at `dict` itself (offset 0) — not the two calls `(0,0), (1,1)`
hashing `dict[i..]` over `i ∈ [0, size - kHashTypeLength)` that the claim
describes.  The type-10 part of the claim does hold: no call is issued. -/
theorem warmupHash_divergence :
    warmupHashCalls kHashTypeLengthBlock 6 = [(0, 0), (0, 1), (0, 2)] ∧
    specWarmupCalls kHashTypeLengthBlock 6 = [(0, 0), (1, 1)] ∧
    warmupHashCalls kHashTypeLengthBlock 6 ≠ specWarmupCalls kHashTypeLengthBlock 6 ∧
    prependCustomDictionaryType10Calls = [] := by decide

/-! ## Claim C9 — BT4 near-end skip is a no-op -/

/-- C9: when `AdvanceOneByte` is called with `max_length < nice_length_` it
returns at once: the matches pointer is unchanged and `hash_tabs_` and
`child_tab_` are exactly as they were (no `child_tab_` index is written and
`*best_len_ret` is not set). -/
theorem bt4AdvanceOneByte_skip_near_end (h2Log h3Log h4Log wLog rLog : ℕ)
    (maxSearchDepth niceLength : ℕ) (data : ℕ → ℕ) (curIx maxLength : ℕ) (record : Bool)
    (ms0 : List BMatch) (ht ct : ℕ → ℕ)
    (h : maxLength < niceLength) :
    bt4AdvanceOneByte h2Log h3Log h4Log wLog rLog maxSearchDepth niceLength data curIx
        maxLength record ms0 ht ct
      = ⟨ms0, ht, ct, [], none⟩ := by
  unfold bt4AdvanceOneByte
  rw [if_pos h]

/-- Witness for C9 at a concrete input (`max_length = 8 < nice_length = 48`). -/
theorem bt4AdvanceOneByte_skip_near_end_witness :
    bt4AdvanceOneByte 10 15 17 10 10 32 48 (fun _ => 0) 100 8 true []
        (fun _ => 50) (fun _ => 0)
      = ⟨[], fun _ => 50, fun _ => 0, [], none⟩ :=
  bt4AdvanceOneByte_skip_near_end 10 15 17 10 10 32 48 (fun _ => 0) 100 8 true []
    (fun _ => 50) (fun _ => 0) (by norm_num)

/-! ## Claim C10 — `*num_matches`: increment (block) versus overwrite (BT4) -/

/-- C10: `HashLongestMatch::FindAllMatches` *adds* the number of matches of
this call to the caller's `*num_matches` (`*num_matches += matches -
orig_matches`), whereas `BT4_Matchfinder::FindAllMatches` *overwrites* it
(`*num_matches = matches - orig_matches`), regardless of its prior value. -/
theorem numMatches_increment_vs_overwrite (bucketBits blockBits : ℕ)
    (num : ℕ → ℕ) (buckets : ℕ → ℕ → ℤ) (dictFound : Bool) (dictTab : ℕ → ℕ) (kInvalid : ℕ)
    (data : ℕ → ℕ) (ringLog curIx maxLength maxBackward : ℕ)
    (h2Log h3Log h4Log wLog rLog maxSearchDepth niceLength uninitBestLen : ℕ)
    (ht ct : ℕ → ℕ) (numMatchesIn : ℕ) :
    (blockFindAllMatches bucketBits blockBits num buckets dictFound dictTab kInvalid data
        ringLog curIx maxLength maxBackward numMatchesIn).numOut
      = numMatchesIn + (blockFindAllMatches bucketBits blockBits num buckets dictFound dictTab
        kInvalid data ringLog curIx maxLength maxBackward 0).numOut ∧
    (bt4FindAllMatches h2Log h3Log h4Log wLog rLog maxSearchDepth niceLength dictFound dictTab
        kInvalid uninitBestLen data curIx maxLength ht ct numMatchesIn).numOut
      = (bt4FindAllMatches h2Log h3Log h4Log wLog rLog maxSearchDepth niceLength dictFound
        dictTab kInvalid uninitBestLen data curIx maxLength ht ct 0).numOut := by
  constructor
  · simp [blockFindAllMatches]
  · rfl

/-! ## Step-preservation lemmas for the block hasher's `FindLongestMatch` -/

theorem kDistanceCacheOffset_bounds (i : ℕ) :
    -3 ≤ kDistanceCacheOffset.getD i 0 ∧ kDistanceCacheOffset.getD i 0 ≤ 3 := by
  unfold kDistanceCacheOffset
  match i with
  | 0 => decide
  | 1 => decide
  | 2 => decide
  | 3 => decide
  | 4 => decide
  | 5 => decide
  | 6 => decide
  | 7 => decide
  | 8 => decide
  | 9 => decide
  | 10 => decide
  | 11 => decide
  | 12 => decide
  | 13 => decide
  | 14 => decide
  | 15 => decide
  | n + 16 =>
      rw [List.getD_eq_default]
      · norm_num
      · simp

theorem blockDistStep_preserve (data : ℕ → ℕ)
    (ringLog curIx curMasked maxLength maxBackward : ℕ) (distCache : ℕ → ℤ) (i : ℕ)
    {P : BlockAcc → Prop}
    (hwrite : ∀ (len : ℕ) (a : BlockAcc), P a →
      (((curIx : ℤ) - (distCache (kDistanceCacheIndex.getD i 0) +
        kDistanceCacheOffset.getD i 0)) % 2 ^ 32).toNat < curIx →
      (distCache (kDistanceCacheIndex.getD i 0) +
        kDistanceCacheOffset.getD i 0) % 2 ^ 32 ≤ (maxBackward : ℤ) →
      a.bestScore < backwardReferenceScoreUsingLastDistance len i →
      P { found := true, bestScore := backwardReferenceScoreUsingLastDistance len i,
          bestLen := len, outLen := len, outCode := len,
          outDist := distCache (kDistanceCacheIndex.getD i 0) + kDistanceCacheOffset.getD i 0,
          outScore := backwardReferenceScoreUsingLastDistance len i, fromDict := false }) :
    ∀ a, P a →
      P (blockDistStep data ringLog curIx curMasked maxLength maxBackward distCache i a) := by
  intro a ha
  simp only [blockDistStep]
  split_ifs with h1 h2 h3 h4 h5
  all_goals
    first
      | exact ha
      | exact hwrite _ a ha (Nat.lt_of_not_le h1) (le_of_not_lt h2) h5

theorem blockBucketLoop_preserve (data : ℕ → ℕ)
    (ringLog curIx curMasked maxLength maxBackward blockBits : ℕ) (bucket : ℕ → ℤ)
    {P : BlockAcc → Prop}
    (hwrite : ∀ (s : ℕ) (len : ℕ) (a : BlockAcc), P a →
      0 ≤ bucket s →
      sub32 curIx (bucket s).toNat ≤ maxBackward →
      a.bestScore < backwardReferenceScore len (sub32 curIx (bucket s).toNat) →
      P { found := true,
          bestScore := backwardReferenceScore len (sub32 curIx (bucket s).toNat),
          bestLen := len, outLen := len, outCode := len,
          outDist := (sub32 curIx (bucket s).toNat : ℤ),
          outScore := backwardReferenceScore len (sub32 curIx (bucket s).toNat),
          fromDict := false }) :
    ∀ (fuel i : ℕ) (a : BlockAcc), P a →
      P (blockBucketLoop data ringLog curIx curMasked maxLength maxBackward blockBits bucket
        fuel i a) := by
  intro fuel
  induction fuel with
  | zero => intro i a ha; exact ha
  | succ fuel ih =>
      intro i a ha
      simp only [blockBucketLoop]
      split_ifs with h1 h2 h3 h4 h5
      all_goals
        first
          | exact ha
          | exact ih _ _ ha
          | exact ih _ _ (hwrite _ _ a ha h1 (le_of_not_lt h2) h5)

theorem blockDictStep_preserve (dictHash dictBytes dictOffsets dictSizeBits : ℕ → ℕ)
    (data : ℕ → ℕ) (curMasked maxLength maxBackward : ℕ) (key : ℕ)
    {P : BlockAcc → Prop}
    (hwrite : ∀ (matchlen len backward : ℕ) (a : BlockAcc), P a →
      a.bestScore < backwardReferenceScore matchlen backward →
      P { found := true, bestScore := backwardReferenceScore matchlen backward,
          bestLen := matchlen, outLen := matchlen, outCode := len,
          outDist := (backward : ℤ), outScore := backwardReferenceScore matchlen backward,
          fromDict := true }) :
    ∀ a, P a → P (blockDictStep dictHash dictBytes dictOffsets dictSizeBits data curMasked
      maxLength maxBackward key a) := by
  intro a ha
  simp only [blockDictStep]
  split_ifs with h1 h2 h3 h4
  all_goals
    first
      | exact ha
      | exact hwrite _ _ _ a ha h4

section BlockFLM

variable (bucketBits blockBits numLastDistances : ℕ) (num : ℕ → ℕ) (buckets : ℕ → ℕ → ℤ)
  (numDictLookups numDictMatches : ℕ) (dictHash dictBytes dictOffsets dictSizeBits : ℕ → ℕ)
  (data : ℕ → ℕ) (ringLog : ℕ) (distCache : ℕ → ℤ) (curIx maxLength maxBackward : ℕ)
  (lenIn codeIn : ℕ) (distIn : ℤ) (scoreIn : ℤ)

/-- The generic induction principle for the accumulator of
`HashLongestMatch::FindLongestMatch`: any property that holds of the entry
accumulator and is preserved by the three kinds of probe steps holds of the
final accumulator. -/
theorem blockFLM_acc_rec {P : BlockAcc → Prop}
    (hbase : P ⟨false, scoreIn, lenIn, 0, 0, distIn, scoreIn, false⟩)
    (hdist : ∀ i a, P a →
      P (blockDistStep data ringLog curIx (curIx % 2 ^ ringLog) maxLength maxBackward distCache
        i a))
    (hbucket : ∀ fuel i a, P a →
      P (blockBucketLoop data ringLog curIx (curIx % 2 ^ ringLog) maxLength maxBackward
        blockBits (buckets (hashBytesBlock bucketBits (load32 data (curIx % 2 ^ ringLog))))
        fuel i a))
    (hdict : ∀ key a, P a →
      P (blockDictStep dictHash dictBytes dictOffsets dictSizeBits data (curIx % 2 ^ ringLog)
        maxLength maxBackward key a)) :
    P (blockFLMAcc bucketBits blockBits numLastDistances num buckets numDictLookups
      numDictMatches dictHash dictBytes dictOffsets dictSizeBits data ringLog distCache curIx
      maxLength maxBackward lenIn distIn scoreIn) := by
  have hfold : ∀ (l : List ℕ) (a : BlockAcc), P a →
      P (l.foldl (fun a i => blockDistStep data ringLog curIx (curIx % 2 ^ ringLog) maxLength
        maxBackward distCache i a) a) :=
    foldl_preserve (fun b x hb => hdist x b hb)
  simp only [blockFLMAcc]
  split_ifs with h1 h2 h3
  all_goals
    first
      | exact hdict _ _ (hdict _ _ (hbucket _ _ _ (hfold _ _ hbase)))
      | exact hbucket _ _ _ (hfold _ _ hbase)

/-! ## Claim C1 — score monotonicity of `FindLongestMatch` -/

/-- C1 (amended): for the block hashers H5–H9, whenever `FindLongestMatch`
returns true, the exit value of `*best_score_out` is strictly greater than
its entry value.  (As stated over *every* hasher the claim fails: the quick
hashers' distance-cache and single-sweep bucket paths overwrite
`*best_score_out` without comparing against its entry value — see the
counterexample theorem `quickFindLongestMatch_score_not_monotone`.) -/
theorem blockFindLongestMatch_monotone_score
    (h : (blockFindLongestMatch bucketBits blockBits numLastDistances num buckets
      numDictLookups numDictMatches dictHash dictBytes dictOffsets dictSizeBits data ringLog
      distCache curIx maxLength maxBackward lenIn codeIn distIn scoreIn).found = true) :
    scoreIn < (blockFindLongestMatch bucketBits blockBits numLastDistances num buckets
      numDictLookups numDictMatches dictHash dictBytes dictOffsets dictSizeBits data ringLog
      distCache curIx maxLength maxBackward lenIn codeIn distIn scoreIn).outScore := by
  have key : (fun a : BlockAcc => (a.found = true → scoreIn < a.bestScore) ∧
      a.bestScore = (if a.found = true then a.outScore else scoreIn))
      (blockFLMAcc bucketBits blockBits numLastDistances num buckets numDictLookups
        numDictMatches dictHash dictBytes dictOffsets dictSizeBits data ringLog distCache curIx
        maxLength maxBackward lenIn distIn scoreIn) := by
    apply blockFLM_acc_rec (P := fun a : BlockAcc => (a.found = true → scoreIn < a.bestScore) ∧
      a.bestScore = (if a.found = true then a.outScore else scoreIn))
    · exact ⟨fun hco => absurd hco Bool.false_ne_true, by simp⟩
    · intro i a ha
      refine blockDistStep_preserve data ringLog curIx (curIx % 2 ^ ringLog) maxLength
        maxBackward distCache i (P := fun a : BlockAcc => (a.found = true → scoreIn < a.bestScore) ∧
        a.bestScore = (if a.found = true then a.outScore else scoreIn)) ?_ a ha
      intro len a' ha' _ _ hlt
      refine ⟨fun _ => ?_, by simp⟩
      rcases ha' with ⟨hf, hsc⟩
      by_cases hfd : a'.found = true
      · exact lt_trans (hf hfd) hlt
      · rw [if_neg hfd] at hsc
        rw [hsc] at hlt
        exact hlt
    · intro fuel i a ha
      refine blockBucketLoop_preserve data ringLog curIx (curIx % 2 ^ ringLog) maxLength
        maxBackward blockBits _ (P := fun a : BlockAcc => (a.found = true → scoreIn < a.bestScore) ∧
        a.bestScore = (if a.found = true then a.outScore else scoreIn)) ?_ fuel i a ha
      intro s len a' ha' _ _ hlt
      refine ⟨fun _ => ?_, by simp⟩
      rcases ha' with ⟨hf, hsc⟩
      by_cases hfd : a'.found = true
      · exact lt_trans (hf hfd) hlt
      · rw [if_neg hfd] at hsc
        rw [hsc] at hlt
        exact hlt
    · intro k a ha
      refine blockDictStep_preserve dictHash dictBytes dictOffsets dictSizeBits data
        (curIx % 2 ^ ringLog) maxLength maxBackward k (P := fun a : BlockAcc => (a.found = true → scoreIn < a.bestScore) ∧
        a.bestScore = (if a.found = true then a.outScore else scoreIn)) ?_ a ha
      intro matchlen len backward a' ha' hlt
      refine ⟨fun _ => ?_, by simp⟩
      rcases ha' with ⟨hf, hsc⟩
      by_cases hfd : a'.found = true
      · exact lt_trans (hf hfd) hlt
      · rw [if_neg hfd] at hsc
        rw [hsc] at hlt
        exact hlt
  rcases key with ⟨k1, k2⟩
  have hf : (blockFLMAcc bucketBits blockBits numLastDistances num buckets numDictLookups
      numDictMatches dictHash dictBytes dictOffsets dictSizeBits data ringLog distCache curIx
      maxLength maxBackward lenIn distIn scoreIn).found = true := h
  have hlt := k1 hf
  rw [if_pos hf] at k2
  rw [k2] at hlt
  exact hlt

/-! ## Claim C2 — the window bound on non-dictionary distances -/

/-- C2 (amended): for the block hashers H5–H9, under the documented call
ordering (every stored bucket entry is a position strictly before `cur_ix`,
and `cur_ix`, `max_backward` and the distance cache are in machine range),
every match reported by `FindLongestMatch` that is not from the
static-dictionary probe satisfies `1 ≤ distance ≤ max_backward` — in
particular matches found through the last-distance cache probe, whose
`backward > max_backward` check the block hasher performs (hash.h line 388).
As stated over every hasher the claim fails: the quick hashers'
distance-cache probe has no `max_backward` check at all (hash.h lines
177–201) — see `quickFindLongestMatch_distance_exceeds_window`. -/
theorem blockFindLongestMatch_window_bound
    (hcur : curIx < 2 ^ 32) (hmb : maxBackward < 2 ^ 31)
    (hdc : ∀ k, -(2 ^ 31 - 4) ≤ distCache k ∧ distCache k ≤ 2 ^ 31 - 4)
    (hbk : ∀ k s, buckets k s < (curIx : ℤ))
    (hfound : (blockFindLongestMatch bucketBits blockBits numLastDistances num buckets
      numDictLookups numDictMatches dictHash dictBytes dictOffsets dictSizeBits data ringLog
      distCache curIx maxLength maxBackward lenIn codeIn distIn scoreIn).found = true)
    (hnd : (blockFindLongestMatch bucketBits blockBits numLastDistances num buckets
      numDictLookups numDictMatches dictHash dictBytes dictOffsets dictSizeBits data ringLog
      distCache curIx maxLength maxBackward lenIn codeIn distIn scoreIn).fromDict = false) :
    1 ≤ (blockFindLongestMatch bucketBits blockBits numLastDistances num buckets
      numDictLookups numDictMatches dictHash dictBytes dictOffsets dictSizeBits data ringLog
      distCache curIx maxLength maxBackward lenIn codeIn distIn scoreIn).outDist ∧
    (blockFindLongestMatch bucketBits blockBits numLastDistances num buckets
      numDictLookups numDictMatches dictHash dictBytes dictOffsets dictSizeBits data ringLog
      distCache curIx maxLength maxBackward lenIn codeIn distIn scoreIn).outDist
      ≤ (maxBackward : ℤ) := by
  have key : (fun a : BlockAcc => a.found = true → a.fromDict = false →
      1 ≤ a.outDist ∧ a.outDist ≤ (maxBackward : ℤ))
      (blockFLMAcc bucketBits blockBits numLastDistances num buckets numDictLookups
        numDictMatches dictHash dictBytes dictOffsets dictSizeBits data ringLog distCache curIx
        maxLength maxBackward lenIn distIn scoreIn) := by
    apply blockFLM_acc_rec (P := fun a : BlockAcc => a.found = true → a.fromDict = false →
      1 ≤ a.outDist ∧ a.outDist ≤ (maxBackward : ℤ))
    · intro hco _
      exact absurd hco Bool.false_ne_true
    · intro i a ha
      refine blockDistStep_preserve data ringLog curIx (curIx % 2 ^ ringLog) maxLength
        maxBackward distCache i (P := fun a : BlockAcc => a.found = true → a.fromDict = false →
        1 ≤ a.outDist ∧ a.outDist ≤ (maxBackward : ℤ)) ?_ a ha
      intro len a' _ hlt hle _
      dsimp only
      intro _ _
      have hoff := kDistanceCacheOffset_bounds i
      have hdcb := hdc (kDistanceCacheIndex.getD i 0)
      simp only [show ((2:ℤ) ^ 32) = 4294967296 from by norm_num,
        show ((2:ℤ) ^ 31) = 2147483648 from by norm_num,
        show ((2:ℕ) ^ 32) = 4294967296 from by norm_num,
        show ((2:ℕ) ^ 31) = 2147483648 from by norm_num] at hlt hle hdcb hcur hmb ⊢
      constructor <;> omega
    · intro fuel i a ha
      refine blockBucketLoop_preserve data ringLog curIx (curIx % 2 ^ ringLog) maxLength
        maxBackward blockBits _ (P := fun a : BlockAcc => a.found = true → a.fromDict = false →
        1 ≤ a.outDist ∧ a.outDist ≤ (maxBackward : ℤ)) ?_ fuel i a ha
      intro s len a' _ hpos hle _
      dsimp only
      intro _ _
      have hbs := hbk (hashBytesBlock bucketBits (load32 data (curIx % 2 ^ ringLog))) s
      unfold sub32 at hle ⊢
      simp only [show ((2:ℕ) ^ 32) = 4294967296 from by norm_num,
        show ((2:ℕ) ^ 31) = 2147483648 from by norm_num] at hle hcur hmb ⊢
      constructor <;> omega
    · intro k a ha
      refine blockDictStep_preserve dictHash dictBytes dictOffsets dictSizeBits data
        (curIx % 2 ^ ringLog) maxLength maxBackward k (P := fun a : BlockAcc => a.found = true → a.fromDict = false →
        1 ≤ a.outDist ∧ a.outDist ≤ (maxBackward : ℤ)) ?_ a ha
      intro matchlen len backward a' _ _
      dsimp only
      intro _ hfd
      simp at hfd
  exact key hfound hnd

end BlockFLM

/-! ### Counterexamples and witnesses for C1, C2 -/

/-- C1, counterexample to the claim as stated: `HashLongestMatchQuickly`
(H1 configuration: sweep 1, dictionary enabled) returns true from its
distance-cache probe while writing a score `5.4·4 + 0.6 = 22.2` strictly
below the entry score 1000 (×100: `2220 < 100000`) — the probe overwrites
`*best_score_out` without comparing (hash.h lines 186–199).  Input:
all-zero ring buffer with mask 15, `distance_cache[0] = 1`, `cur_ix = 8`,
`max_length = 4`, `max_backward = 8`, entry bests `(0, 0, 0, 1000.00)`. -/
theorem quickFindLongestMatch_score_not_monotone :
    (quickFindLongestMatch 16 1 true (fun _ => 0) 0 0 (fun _ => 0) (fun _ => 0) (fun _ => 0)
      (fun _ => 0) (fun _ => 0) 4 1 8 4 8 0 0 0 100000).found = true ∧
    (quickFindLongestMatch 16 1 true (fun _ => 0) 0 0 (fun _ => 0) (fun _ => 0) (fun _ => 0)
      (fun _ => 0) (fun _ => 0) 4 1 8 4 8 0 0 0 100000).outScore < 100000 := by
  constructor
  · decide
  · decide

/-- Witness for C1 (amended) at a concrete input: an H9-style block hasher
(`L = 16`) finding a last-distance match of length 4 at distance 1 with
entry score 0. -/
theorem blockFindLongestMatch_monotone_score_witness :
    (blockFindLongestMatch 14 4 16 (fun _ => 0) (fun _ _ => 0) 0 0 (fun _ => 0) (fun _ => 0)
      (fun _ => 0) (fun _ => 0) (fun _ => 0) 4 (fun _ => 0) 8 4 8 0 0 0 0).found = true ∧
    (0 : ℤ) < (blockFindLongestMatch 14 4 16 (fun _ => 0) (fun _ _ => 0) 0 0 (fun _ => 0)
      (fun _ => 0) (fun _ => 0) (fun _ => 0) (fun _ => 0) 4 (fun _ => 0) 8 4 8 0 0 0 0).outScore :=
  ⟨by decide, blockFindLongestMatch_monotone_score 14 4 16 (fun _ => 0) (fun _ _ => 0) 0 0
    (fun _ => 0) (fun _ => 0) (fun _ => 0) (fun _ => 0) (fun _ => 0) 4 (fun _ => 0) 8 4 8 0 0 0 0
    (by decide)⟩

/-- C2, counterexample to the claim as stated: the quick hasher's
distance-cache probe reports `distance = distance_cache[0] = 5` although
`max_backward = 2` — there is no `backward ≤ max_backward` check on that
path.  The match is not a dictionary match (`fromDict = false`). -/
theorem quickFindLongestMatch_distance_exceeds_window :
    (quickFindLongestMatch 16 1 true (fun _ => 0) 0 0 (fun _ => 0) (fun _ => 0) (fun _ => 0)
      (fun _ => 0) (fun _ => 0) 4 5 8 4 2 0 0 0 0).found = true ∧
    (quickFindLongestMatch 16 1 true (fun _ => 0) 0 0 (fun _ => 0) (fun _ => 0) (fun _ => 0)
      (fun _ => 0) (fun _ => 0) 4 5 8 4 2 0 0 0 0).fromDict = false ∧
    (2 : ℤ) < (quickFindLongestMatch 16 1 true (fun _ => 0) 0 0 (fun _ => 0) (fun _ => 0)
      (fun _ => 0) (fun _ => 0) (fun _ => 0) 4 5 8 4 2 0 0 0 0).outDist := by
  refine ⟨by decide, by decide, by decide⟩

/-- Witness for C2 (amended) at a concrete input: the last-distance match of
the C1 witness has distance 1, within `max_backward = 8`. -/
theorem blockFindLongestMatch_window_bound_witness :
    1 ≤ (blockFindLongestMatch 14 4 16 (fun _ => 0) (fun _ _ => -1) 0 0 (fun _ => 0)
      (fun _ => 0) (fun _ => 0) (fun _ => 0) (fun _ => 0) 4 (fun _ => 0) 8 4 8 0 0 0 0).outDist ∧
    (blockFindLongestMatch 14 4 16 (fun _ => 0) (fun _ _ => -1) 0 0 (fun _ => 0) (fun _ => 0)
      (fun _ => 0) (fun _ => 0) (fun _ => 0) 4 (fun _ => 0) 8 4 8 0 0 0 0).outDist ≤ (8 : ℤ) :=
  blockFindLongestMatch_window_bound 14 4 16 (fun _ => 0) (fun _ _ => -1) 0 0 (fun _ => 0)
    (fun _ => 0) (fun _ => 0) (fun _ => 0) (fun _ => 0) 4 (fun _ => 0) 8 4 8 0 0 0 0
    (by norm_num) (by norm_num) (fun k => by norm_num) (fun k s => by norm_num)
    (by decide) (by decide)

/-! ## Claim C4 — out-parameters on a false return -/

theorem quickSweepStep_cases (data : ℕ → ℕ)
    (ringLog curIx curMasked maxLength maxBackward : ℕ) (prevRaw : ℕ) (a : QuickAcc) :
    quickSweepStep data ringLog curIx curMasked maxLength maxBackward prevRaw a = a ∨
    (quickSweepStep data ringLog curIx curMasked maxLength maxBackward prevRaw a).found
      = true := by
  simp only [quickSweepStep]
  split_ifs
  all_goals first | exact Or.inl rfl | exact Or.inr rfl

theorem quickDictTail_false (useDict : Bool) (numDictLookups numDictMatches : ℕ)
    (dictHash dictBytes dictOffsets dictSizeBits : ℕ → ℕ) (data : ℕ → ℕ)
    (curMasked maxLength maxBackward : ℕ) (acc : QuickAcc)
    (h : (quickDictTail useDict numDictLookups numDictMatches dictHash dictBytes dictOffsets
      dictSizeBits data curMasked maxLength maxBackward acc).found = false) :
    quickDictTail useDict numDictLookups numDictMatches dictHash dictBytes dictOffsets
      dictSizeBits data curMasked maxLength maxBackward acc
      = ⟨acc.found, acc.outLen, acc.outCode, acc.outDist, acc.outScore, false⟩ := by
  cases hp : quickDictProbe dictHash dictBytes dictOffsets dictSizeBits data curMasked
      maxLength maxBackward acc.bestScore with
  | none =>
      simp only [quickDictTail, hp]
      split_ifs <;> rfl
  | some v =>
      obtain ⟨m, l, b, sc⟩ := v
      simp only [quickDictTail, hp] at h ⊢
      split_ifs at h ⊢ with h1
      all_goals first | rfl | simp at h

theorem quickSweepFold_cases (data : ℕ → ℕ)
    (ringLog curIx curMasked maxLength maxBackward : ℕ) (buckets : ℕ → ℕ) (key : ℕ)
    (l : List ℕ) (a : QuickAcc) :
    (l.foldl (fun a i => quickSweepStep data ringLog curIx curMasked maxLength maxBackward
      (buckets (key + i)) a) a = a) ∨
    (l.foldl (fun a i => quickSweepStep data ringLog curIx curMasked maxLength maxBackward
      (buckets (key + i)) a) a).found = true := by
  have := foldl_preserve (P := fun b : QuickAcc => b = a ∨ b.found = true)
    (f := fun b i => quickSweepStep data ringLog curIx curMasked maxLength maxBackward
      (buckets (key + i)) b) ?_ l a (Or.inl rfl)
  · exact this
  · intro b x hb
    dsimp only
    rcases quickSweepStep_cases data ringLog curIx curMasked maxLength maxBackward
        (buckets (key + x)) b with he | ht
    · rw [he]; exact hb
    · exact Or.inr ht

theorem quickSweepFold_keeps_found (data : ℕ → ℕ)
    (ringLog curIx curMasked maxLength maxBackward : ℕ) (buckets : ℕ → ℕ) (key : ℕ)
    (l : List ℕ) (a : QuickAcc) (ha : a.found = true) :
    (l.foldl (fun a i => quickSweepStep data ringLog curIx curMasked maxLength maxBackward
      (buckets (key + i)) a) a).found = true := by
  rcases quickSweepFold_cases data ringLog curIx curMasked maxLength maxBackward buckets key
      l a with he | ht
  · rw [he]; exact ha
  · exact ht

/-- C4 (amended): when `FindLongestMatch` returns false, the quick hashers
leave all four in/out parameters exactly at their entry values; the block
hashers leave `*best_distance_out` and `*best_score_out` at their entry
values but have already zeroed `*best_len_out` and `*best_len_code_out`
unconditionally on entry (hash.h lines 373 and 379) — so for them the claim
as stated fails (see `blockFindLongestMatch_zeroes_len_on_false`). -/
theorem findLongestMatch_outputs_on_false
    (bucketBits sweep : ℕ) (useDict : Bool) (qbuckets : ℕ → ℕ) (qndl qndm : ℕ)
    (dictHash dictBytes dictOffsets dictSizeBits : ℕ → ℕ) (data : ℕ → ℕ) (ringLog : ℕ)
    (dc0 : ℤ) (curIx maxLength maxBackward : ℕ) (lenIn codeIn : ℕ) (distIn : ℤ) (scoreIn : ℤ)
    (blockBits numLastDistances : ℕ) (num : ℕ → ℕ) (buckets : ℕ → ℕ → ℤ) (bndl bndm : ℕ)
    (bdata : ℕ → ℕ) (bringLog : ℕ) (distCache : ℕ → ℤ) (bcurIx bmaxLength bmaxBackward : ℕ)
    (blenIn bcodeIn : ℕ) (bdistIn : ℤ) (bscoreIn : ℤ) :
    ((quickFindLongestMatch bucketBits sweep useDict qbuckets qndl qndm dictHash dictBytes
        dictOffsets dictSizeBits data ringLog dc0 curIx maxLength maxBackward lenIn codeIn
        distIn scoreIn).found = false →
      quickFindLongestMatch bucketBits sweep useDict qbuckets qndl qndm dictHash dictBytes
        dictOffsets dictSizeBits data ringLog dc0 curIx maxLength maxBackward lenIn codeIn
        distIn scoreIn = ⟨false, lenIn, codeIn, distIn, scoreIn, false⟩) ∧
    ((blockFindLongestMatch bucketBits blockBits numLastDistances num buckets bndl bndm
        dictHash dictBytes dictOffsets dictSizeBits bdata bringLog distCache bcurIx bmaxLength
        bmaxBackward blenIn bcodeIn bdistIn bscoreIn).found = false →
      (blockFindLongestMatch bucketBits blockBits numLastDistances num buckets bndl bndm
        dictHash dictBytes dictOffsets dictSizeBits bdata bringLog distCache bcurIx bmaxLength
        bmaxBackward blenIn bcodeIn bdistIn bscoreIn).outLen = 0 ∧
      (blockFindLongestMatch bucketBits blockBits numLastDistances num buckets bndl bndm
        dictHash dictBytes dictOffsets dictSizeBits bdata bringLog distCache bcurIx bmaxLength
        bmaxBackward blenIn bcodeIn bdistIn bscoreIn).outCode = 0 ∧
      (blockFindLongestMatch bucketBits blockBits numLastDistances num buckets bndl bndm
        dictHash dictBytes dictOffsets dictSizeBits bdata bringLog distCache bcurIx bmaxLength
        bmaxBackward blenIn bcodeIn bdistIn bscoreIn).outDist = bdistIn ∧
      (blockFindLongestMatch bucketBits blockBits numLastDistances num buckets bndl bndm
        dictHash dictBytes dictOffsets dictSizeBits bdata bringLog distCache bcurIx bmaxLength
        bmaxBackward blenIn bcodeIn bdistIn bscoreIn).outScore = bscoreIn) := by
  constructor
  · -- the quick hashers write the outputs only on paths that return true
    intro h
    simp only [quickFindLongestMatch] at h ⊢
    cases hhit : quickHit1 data ringLog dc0 curIx maxLength lenIn with
    | some len =>
        rw [hhit] at h
        dsimp only at h ⊢
        by_cases hs : sweep = 1
        · rw [if_pos hs] at h
          simp at h
        · rw [if_neg hs] at h ⊢
          rw [quickDictTail_false useDict qndl qndm dictHash dictBytes dictOffsets
            dictSizeBits data (curIx % 2 ^ ringLog) maxLength maxBackward _ h] at h
          dsimp only at h
          rcases quickSweepFold_cases data ringLog curIx (curIx % 2 ^ ringLog) maxLength
              maxBackward qbuckets
              (hashBytesQuick bucketBits (load64 data (curIx % 2 ^ ringLog)))
              (List.range sweep) _ with he | ht
          · rw [he] at h
            simp at h
          · rw [ht] at h
            simp at h
    | none =>
        rw [hhit] at h
        dsimp only at h ⊢
        by_cases hs : sweep = 1
        · rw [if_pos hs] at h ⊢
          split_ifs at h ⊢
          all_goals
            first
              | rfl
              | simp at h
              | exact quickDictTail_false useDict qndl qndm dictHash dictBytes dictOffsets
                  dictSizeBits data (curIx % 2 ^ ringLog) maxLength maxBackward _ h
        · rw [if_neg hs] at h ⊢
          rcases quickSweepFold_cases data ringLog curIx (curIx % 2 ^ ringLog) maxLength
              maxBackward qbuckets
              (hashBytesQuick bucketBits (load64 data (curIx % 2 ^ ringLog)))
              (List.range sweep) _ with he | ht
          · rw [he] at h ⊢
            exact quickDictTail_false useDict qndl qndm dictHash dictBytes dictOffsets
              dictSizeBits data (curIx % 2 ^ ringLog) maxLength maxBackward _ h
          · rw [quickDictTail_false useDict qndl qndm dictHash dictBytes dictOffsets
              dictSizeBits data (curIx % 2 ^ ringLog) maxLength maxBackward _ h] at h
            rw [ht] at h
            simp at h
  · -- the block hashers: the accumulator never changes unless found is set
    intro h
    have key : (fun a : BlockAcc => a.found = false →
        a = ⟨false, bscoreIn, blenIn, 0, 0, bdistIn, bscoreIn, false⟩)
        (blockFLMAcc bucketBits blockBits numLastDistances num buckets bndl bndm dictHash
          dictBytes dictOffsets dictSizeBits bdata bringLog distCache bcurIx bmaxLength
          bmaxBackward blenIn bdistIn bscoreIn) := by
      apply blockFLM_acc_rec (P := fun a : BlockAcc => a.found = false →
        a = ⟨false, bscoreIn, blenIn, 0, 0, bdistIn, bscoreIn, false⟩)
      · intro _; rfl
      · intro i a ha
        refine blockDistStep_preserve bdata bringLog bcurIx (bcurIx % 2 ^ bringLog) bmaxLength
          bmaxBackward distCache i (P := fun a : BlockAcc => a.found = false →
            a = ⟨false, bscoreIn, blenIn, 0, 0, bdistIn, bscoreIn, false⟩) ?_ a ha
        intro len a' _ _ _ _
        intro hfd
        simp at hfd
      · intro fuel i a ha
        refine blockBucketLoop_preserve bdata bringLog bcurIx (bcurIx % 2 ^ bringLog)
          bmaxLength bmaxBackward blockBits _ (P := fun a : BlockAcc => a.found = false →
            a = ⟨false, bscoreIn, blenIn, 0, 0, bdistIn, bscoreIn, false⟩) ?_ fuel i a ha
        intro s len a' _ _ _ _
        intro hfd
        simp at hfd
      · intro k a ha
        refine blockDictStep_preserve dictHash dictBytes dictOffsets dictSizeBits bdata
          (bcurIx % 2 ^ bringLog) bmaxLength bmaxBackward k
          (P := fun a : BlockAcc => a.found = false →
            a = ⟨false, bscoreIn, blenIn, 0, 0, bdistIn, bscoreIn, false⟩) ?_ a ha
        intro matchlen len backward a' _ _
        intro hfd
        simp at hfd
    have hacc := key h
    exact ⟨congrArg BlockAcc.outLen hacc, congrArg BlockAcc.outCode hacc,
      congrArg BlockAcc.outDist hacc, congrArg BlockAcc.outScore hacc⟩

/-- C4, counterexample to the claim as stated: a false-returning
`HashLongestMatch::FindLongestMatch` call entered with `*best_len_out = 7`
exits with `*best_len_out = 0` (and `*best_len_code_out = 0`): the function
zeroes both before probing.  Input: all-zero ring buffer, empty buckets,
zero distance cache, `max_backward = 0` (every probe is rejected), entry
bests `(7, 9, 11, 2.5)` (score ×100). -/
theorem blockFindLongestMatch_zeroes_len_on_false :
    (blockFindLongestMatch 14 4 16 (fun _ => 0) (fun _ _ => 0) 0 0 (fun _ => 0) (fun _ => 0)
      (fun _ => 0) (fun _ => 0) (fun _ => 0) 4 (fun _ => 0) 8 4 0 7 9 11 250).found = false ∧
    (blockFindLongestMatch 14 4 16 (fun _ => 0) (fun _ _ => 0) 0 0 (fun _ => 0) (fun _ => 0)
      (fun _ => 0) (fun _ => 0) (fun _ => 0) 4 (fun _ => 0) 8 4 0 7 9 11 250).outLen = 0 ∧
    (blockFindLongestMatch 14 4 16 (fun _ => 0) (fun _ _ => 0) 0 0 (fun _ => 0) (fun _ => 0)
      (fun _ => 0) (fun _ => 0) (fun _ => 0) 4 (fun _ => 0) 8 4 0 7 9 11 250).outLen ≠ 7 := by
  refine ⟨by decide, by decide, by decide⟩

/-- Witness for C4 (amended) at concrete inputs: a false-returning quick
call preserves all four entry values `(3, 5, 7, 9)`, and the block call of
the counterexample preserves its entry distance and score. -/
theorem findLongestMatch_outputs_on_false_witness :
    quickFindLongestMatch 16 1 true (fun _ => 0) 0 0 (fun _ => 0) (fun _ => 0) (fun _ => 0)
      (fun _ => 0) (fun _ => 0) 4 0 8 4 0 3 5 7 9 = ⟨false, 3, 5, 7, 9, false⟩ ∧
    ((blockFindLongestMatch 14 4 16 (fun _ => 0) (fun _ _ => 0) 0 0 (fun _ => 0) (fun _ => 0)
        (fun _ => 0) (fun _ => 0) (fun _ => 0) 4 (fun _ => 0) 8 4 0 7 9 11 250).outDist = 11 ∧
     (blockFindLongestMatch 14 4 16 (fun _ => 0) (fun _ _ => 0) 0 0 (fun _ => 0) (fun _ => 0)
        (fun _ => 0) (fun _ => 0) (fun _ => 0) 4 (fun _ => 0) 8 4 0 7 9 11 250).outScore
       = 250) :=
  ⟨(findLongestMatch_outputs_on_false 16 1 true (fun _ => 0) 0 0 (fun _ => 0) (fun _ => 0)
      (fun _ => 0) (fun _ => 0) (fun _ => 0) 4 0 8 4 0 3 5 7 9 4 16 (fun _ => 0) (fun _ _ => 0)
      0 0 (fun _ => 0) 4 (fun _ => 0) 8 4 0 7 9 11 250).1 (by decide),
   ⟨((findLongestMatch_outputs_on_false 16 1 true (fun _ => 0) 0 0 (fun _ => 0) (fun _ => 0)
      (fun _ => 0) (fun _ => 0) (fun _ => 0) 4 0 8 4 0 3 5 7 9 4 16 (fun _ => 0) (fun _ _ => 0)
      0 0 (fun _ => 0) 4 (fun _ => 0) 8 4 0 7 9 11 250).2 (by decide)).2.2.1,
    ((findLongestMatch_outputs_on_false 16 1 true (fun _ => 0) 0 0 (fun _ => 0) (fun _ => 0)
      (fun _ => 0) (fun _ => 0) (fun _ => 0) 4 0 8 4 0 3 5 7 9 4 16 (fun _ => 0) (fun _ _ => 0)
      0 0 (fun _ => 0) 4 (fun _ => 0) 8 4 0 7 9 11 250).2 (by decide)).2.2.2⟩⟩

/-! ## Claim C7 — the block hashers' bucket ring invariant under `Store` -/

theorem mod_sub_ne (M j cnt : ℕ) (hj0 : 0 < j) (hjM : j < M) (hjc : j ≤ cnt) :
    (cnt - j) % M ≠ cnt % M := by
  intro he
  have hmod : Nat.ModEq M (cnt - j) cnt := he
  have hdvd : (M : ℤ) ∣ (cnt : ℤ) - ((cnt - j : ℕ) : ℤ) := hmod.dvd
  rw [Nat.cast_sub hjc] at hdvd
  have hj : (cnt : ℤ) - ((cnt : ℤ) - (j : ℤ)) = (j : ℤ) := by ring
  rw [hj] at hdvd
  have := Int.le_of_dvd (by exact_mod_cast hj0) hdvd
  omega

/-- C7: after any sequence of `Store` calls (starting from `Reset`) in which
fewer than `2^16` stores hashed to bucket `h`, `num_[h]` equals the number
of stores whose key was `h`, and for every
`j < min(num_[h], 2^kBlockBits)` the `(j+1)`-th most recent stored position
with key `h` occupies `buckets_[h][(num_[h] - 1 - j) & kBlockMask]` — the
most recent `min(num_[h], 2^kBlockBits)` positions going backwards in
recency order.  `stores` lists the `Store` calls in order as pairs of the
loaded 4-byte value and the position. -/
theorem blockStore_ring_invariant (bucketBits blockBits : ℕ) (b0 : ℕ → ℕ → ℤ) (h : ℕ)
    (stores : List (ℕ × ℤ))
    (hcount : (stores.filter (fun q => hashBytesBlock bucketBits q.1 == h)).length < 2 ^ 16) :
    (blockStoreSeq bucketBits blockBits (blockResetState b0) stores).num h
      = (stores.filter (fun q => hashBytesBlock bucketBits q.1 == h)).length ∧
    ∀ j < min (stores.filter (fun q => hashBytesBlock bucketBits q.1 == h)).length
        (2 ^ blockBits),
      (blockStoreSeq bucketBits blockBits (blockResetState b0) stores).buckets h
          (((stores.filter (fun q => hashBytesBlock bucketBits q.1 == h)).length - 1 - j)
            % 2 ^ blockBits)
        = ((stores.filter (fun q => hashBytesBlock bucketBits q.1 == h)).reverse.getD j
            (0, 0)).2 := by
  revert hcount
  induction stores using List.reverseRecOn with
  | nil =>
      intro _
      refine ⟨rfl, ?_⟩
      intro j hj
      simp at hj
  | append_singleton l p ih =>
      intro hcount
      set st := blockStoreSeq bucketBits blockBits (blockResetState b0) l with hst
      set Fl := l.filter (fun q => hashBytesBlock bucketBits q.1 == h) with hFl
      have hseq : blockStoreSeq bucketBits blockBits (blockResetState b0) (l ++ [p])
          = blockStore bucketBits blockBits st p.1 p.2 := by
        rw [hst]
        simp [blockStoreSeq, List.foldl_append]
      by_cases hp : hashBytesBlock bucketBits p.1 = h
      · -- the appended store hashes to bucket h
        have hfa : (l ++ [p]).filter (fun q => hashBytesBlock bucketBits q.1 == h)
            = Fl ++ [p] := by
          rw [hFl]
          simp [List.filter_append, List.filter_singleton, hp]
        have hcl : Fl.length + 1 < 2 ^ 16 := by
          rw [hfa] at hcount
          simpa using hcount
        obtain ⟨ihn, ihb⟩ := ih (by omega)
        rw [hseq, hfa]
        simp only [blockStore, hp]
        constructor
        · rw [Function.update_same, ihn, Nat.mod_eq_of_lt hcl]
          simp
        · intro j hj
          simp only [List.length_append, List.length_singleton] at hj ⊢
          rw [List.reverse_append, List.reverse_singleton, List.singleton_append]
          cases j with
          | zero =>
              have hslot : Fl.length + 1 - 1 - 0 = Fl.length := by omega
              rw [hslot, if_pos ⟨by trivial, by rw [ihn]⟩, List.getD_cons_zero]
          | succ j' =>
              have hmin : j' + 1 < min (Fl.length + 1) (2 ^ blockBits) := by
                simpa using hj
              have hj1 : j' + 1 ≤ Fl.length := by omega
              have hjK : j' + 1 < 2 ^ blockBits := by omega
              have hslot : Fl.length + 1 - 1 - (j' + 1) = Fl.length - 1 - j' := by omega
              rw [hslot]
              have hcond : ((Fl.length - 1 - j') % 2 ^ blockBits)
                  ≠ st.num h % 2 ^ blockBits := by
                rw [ihn]
                have harith : Fl.length - 1 - j' = Fl.length - (j' + 1) := by omega
                rw [harith]
                exact mod_sub_ne (2 ^ blockBits) (j' + 1) Fl.length (by omega) hjK hj1
              rw [if_neg (fun hc => hcond hc.2), List.getD_cons_succ]
              exact ihb j' (by omega)
      · -- the appended store hashes to a different bucket
        have hfa : (l ++ [p]).filter (fun q => hashBytesBlock bucketBits q.1 == h)
            = l.filter (fun q => hashBytesBlock bucketBits q.1 == h) := by
          simp [List.filter_append, List.filter_singleton, hp]
        rw [hfa] at hcount
        obtain ⟨ihn, ihb⟩ := ih hcount
        rw [hseq, hfa]
        simp only [blockStore]
        constructor
        · rw [Function.update_noteq (fun hh => hp hh.symm)]
          exact ihn
        · intro j hj
          rw [if_neg (fun hc => hp hc.1.symm)]
          exact ihb j hj

/-- Witness for C7 at a concrete input: two stores with the same key. -/
theorem blockStore_ring_invariant_witness :
    (blockStoreSeq 14 4 (blockResetState fun _ _ => -1) [(0, 5), (0, 9)]).num
        (hashBytesBlock 14 0)
      = (([(0, 5), (0, 9)] : List (ℕ × ℤ)).filter
          (fun q => hashBytesBlock 14 q.1 == hashBytesBlock 14 0)).length ∧
    ∀ j < min (([(0, 5), (0, 9)] : List (ℕ × ℤ)).filter
        (fun q => hashBytesBlock 14 q.1 == hashBytesBlock 14 0)).length (2 ^ 4),
      (blockStoreSeq 14 4 (blockResetState fun _ _ => -1) [(0, 5), (0, 9)]).buckets
          (hashBytesBlock 14 0)
          (((([(0, 5), (0, 9)] : List (ℕ × ℤ)).filter
              (fun q => hashBytesBlock 14 q.1 == hashBytesBlock 14 0)).length - 1 - j)
            % 2 ^ 4)
        = ((([(0, 5), (0, 9)] : List (ℕ × ℤ)).filter
            (fun q => hashBytesBlock 14 q.1 == hashBytesBlock 14 0)).reverse.getD j (0, 0)).2 :=
  blockStore_ring_invariant 14 4 (fun _ _ => -1) (hashBytesBlock 14 0) [(0, 5), (0, 9)]
    (by decide)

/-! ## Claim C6 — BT4 assigns both child slots of the inserted node -/

/-- Case analysis for `bt4Step1`: either the function returns here having
written both pending slots, or the loop continues with the pending
pointers, `child_tab_` and the write log untouched. -/
theorem bt4Step1_cases (c : BT4Ctx) (ht : ℕ → ℕ) (s : BT4LoopState) :
    (∃ r, bt4Step1 c ht s = Sum.inl r ∧ s.pendLt ∈ r.written ∧ s.pendGt ∈ r.written ∧
      ∀ x ∈ s.w, x ∈ r.written) ∨
    (∃ s1, bt4Step1 c ht s = Sum.inr s1 ∧ s1.pendLt = s.pendLt ∧ s1.pendGt = s.pendGt ∧
      s1.w = s.w) := by
  simp only [bt4Step1]
  split_ifs
  all_goals
    first
      | exact Or.inl ⟨_, rfl, by simp, by simp, fun x hx => by simp [hx]⟩
      | exact Or.inr ⟨_, rfl, rfl, rfl, rfl⟩

/-- Case analysis for `bt4Step2`: either the function returns here having
written both pending slots, or the loop continues with each pending pointer
either unchanged or already written (logged). -/
theorem bt4Step2_cases (c : BT4Ctx) (ht : ℕ → ℕ) (depthDone : Bool) (s : BT4LoopState) :
    (∃ r, bt4Step2 c ht depthDone s = Sum.inl r ∧ s.pendLt ∈ r.written ∧
      s.pendGt ∈ r.written ∧ ∀ x ∈ s.w, x ∈ r.written) ∨
    (∃ s2, bt4Step2 c ht depthDone s = Sum.inr s2 ∧
      (s.pendLt = s2.pendLt ∨ s.pendLt ∈ s2.w) ∧
      (s.pendGt = s2.pendGt ∨ s.pendGt ∈ s2.w) ∧
      ∀ x ∈ s.w, x ∈ s2.w) := by
  simp only [bt4Step2]
  split_ifs
  all_goals
    first
      | exact Or.inl ⟨_, rfl, by simp, by simp, fun x hx => by simp [hx]⟩
      | exact Or.inr ⟨_, rfl, Or.inr (by simp), Or.inl rfl, fun x hx => by simp [hx]⟩
      | exact Or.inr ⟨_, rfl, Or.inl rfl, Or.inr (by simp), fun x hx => by simp [hx]⟩

/-- Every termination path of the tree-descent loop writes the cells the two
pending pointers refer to; moreover the write log only grows. -/
theorem bt4Loop_written (c : BT4Ctx) (ht : ℕ → ℕ) :
    ∀ (fuel : ℕ) (s : BT4LoopState),
      s.pendLt ∈ (bt4Loop c ht fuel s).written ∧
      s.pendGt ∈ (bt4Loop c ht fuel s).written ∧
      ∀ x ∈ s.w, x ∈ (bt4Loop c ht fuel s).written := by
  intro fuel
  induction fuel with
  | zero =>
      intro s
      simp only [bt4Loop]
      exact ⟨by simp, by simp, fun x hx => by simp [hx]⟩
  | succ fuel ih =>
      intro s
      rcases bt4Step1_cases c ht s with ⟨r, hr, h1, h2, h3⟩ | ⟨s1, hs1, e1, e2, e3⟩
      · simp only [bt4Loop, hr]
        exact ⟨h1, h2, h3⟩
      · rcases bt4Step2_cases c ht (fuel == 0) s1 with ⟨r, hr, h1, h2, h3⟩ |
            ⟨s2, hs2, d1, d2, d3⟩
        · simp only [bt4Loop, hs1, hr]
          rw [e1] at h1
          rw [e2] at h2
          rw [e3] at h3
          exact ⟨h1, h2, h3⟩
        · simp only [bt4Loop, hs1, hs2]
          obtain ⟨i1, i2, i3⟩ := ih s2
          refine ⟨?_, ?_, ?_⟩
          · rcases d1 with hd | hd
            · rw [← e1, hd]
              exact i1
            · rw [← e1]
              exact i3 _ hd
          · rcases d2 with hd | hd
            · rw [← e2, hd]
              exact i2
            · rw [← e2]
              exact i3 _ hd
          · intro x hx
            rw [← e3] at hx
            exact i3 x (d3 x hx)

/-- C6: whenever `AdvanceOneByte` runs with `max_length ≥ nice_length_` (so
the new node `cur_ix` is inserted), on every termination path both child
slots of the new node — `child_tab_[2*(cur_ix & window_mask_)]` and
`child_tab_[2*(cur_ix & window_mask_) + 1]` — are assigned (written with a
previous tree position or the sentinel `-window_mask_`) before the function
returns. -/
theorem bt4AdvanceOneByte_assigns_children (h2Log h3Log h4Log wLog rLog
    maxSearchDepth niceLength : ℕ) (data : ℕ → ℕ) (curIx maxLength : ℕ) (record : Bool)
    (ms0 : List BMatch) (ht ct : ℕ → ℕ)
    (h : niceLength ≤ maxLength) :
    2 * (curIx % 2 ^ wLog) ∈ (bt4AdvanceOneByte h2Log h3Log h4Log wLog rLog maxSearchDepth
      niceLength data curIx maxLength record ms0 ht ct).written ∧
    2 * (curIx % 2 ^ wLog) + 1 ∈ (bt4AdvanceOneByte h2Log h3Log h4Log wLog rLog
      maxSearchDepth niceLength data curIx maxLength record ms0 ht ct).written := by
  simp only [bt4AdvanceOneByte]
  split_ifs with h1
  all_goals
    first
      | omega
      | exact ⟨(bt4Loop_written _ _ _ _).1, (bt4Loop_written _ _ _ _).2.1⟩
      | (refine ⟨?_, ?_⟩ <;> simp <;> done)

/-- Witness for C6 at a concrete input (`cur_ix = 5`, window log 10: slots
10 and 11 are written with the sentinel on the pre-loop return path). -/
theorem bt4AdvanceOneByte_assigns_children_witness :
    2 * (5 % 2 ^ 10) ∈ (bt4AdvanceOneByte 10 15 17 10 10 32 4 (fun _ => 7) 5 8 true []
      (fun _ => (2 ^ 32 - 1023 : ℕ)) (fun _ => 0)).written ∧
    2 * (5 % 2 ^ 10) + 1 ∈ (bt4AdvanceOneByte 10 15 17 10 10 32 4 (fun _ => 7) 5 8 true []
      (fun _ => (2 ^ 32 - 1023 : ℕ)) (fun _ => 0)).written :=
  bt4AdvanceOneByte_assigns_children 10 15 17 10 10 32 4 (fun _ => 7) 5 8 true []
    (fun _ => (2 ^ 32 - 1023 : ℕ)) (fun _ => 0) (by norm_num)

/-! ## Claim C5 — the zopfli rewind in `FindAllMatches` -/

theorem BMatch.length_mk2 (d : ℤ) (l : ℕ) : (BMatch.mk2 d l).length = l := by
  simp only [BMatch.mk2, BMatch.length]
  omega

theorem famBackScan_single (data : ℕ → ℕ)
    (ringLog curIx curMasked maxLength maxBackward stop : ℕ) :
    ∀ (fuel i bestLen : ℕ) (ms : List BMatch),
      (kMaxZopfliLen < bestLen → ∃ m : BMatch, ms = [m] ∧ m.length = bestLen) →
      (kMaxZopfliLen < (famBackScan data ringLog curIx curMasked maxLength maxBackward stop
          fuel i bestLen ms).1 →
        ∃ m : BMatch,
          (famBackScan data ringLog curIx curMasked maxLength maxBackward stop fuel i bestLen
            ms).2 = [m] ∧
          m.length = (famBackScan data ringLog curIx curMasked maxLength maxBackward stop fuel
            i bestLen ms).1) := by
  intro fuel
  induction fuel with
  | zero =>
      intro i bl ms h
      simpa using h
  | succ fuel ih =>
      intro i bl ms h
      simp only [famBackScan]
      split_ifs with h1 h2 h3 h4 h5
      all_goals
        first
          | simpa using h
          | exact ih _ _ _ h
          | exact ih _ _ _ (fun hlen => absurd hlen h5)
          | exact ih _ _ _ (fun _ => ⟨_, rfl, BMatch.length_mk2 _ _⟩)

theorem famBucketScan_single (data : ℕ → ℕ)
    (ringLog curIx curMasked maxLength maxBackward blockBits : ℕ) (bucket : ℕ → ℤ) :
    ∀ (fuel i bestLen : ℕ) (ms : List BMatch),
      (kMaxZopfliLen < bestLen → ∃ m : BMatch, ms = [m] ∧ m.length = bestLen) →
      (kMaxZopfliLen < (famBucketScan data ringLog curIx curMasked maxLength maxBackward
          blockBits bucket fuel i bestLen ms).1 →
        ∃ m : BMatch,
          (famBucketScan data ringLog curIx curMasked maxLength maxBackward blockBits bucket
            fuel i bestLen ms).2 = [m] ∧
          m.length = (famBucketScan data ringLog curIx curMasked maxLength maxBackward
            blockBits bucket fuel i bestLen ms).1) := by
  intro fuel
  induction fuel with
  | zero =>
      intro i bl ms h
      simpa using h
  | succ fuel ih =>
      intro i bl ms h
      simp only [famBucketScan]
      split_ifs with h1 h2 h3 h4 h5
      all_goals
        first
          | simpa using h
          | exact ih _ _ _ h
          | exact ih _ _ _ (fun hlen => absurd hlen h5)
          | exact ih _ _ _ (fun _ => ⟨_, rfl, BMatch.length_mk2 _ _⟩)

/-- The dictionary pass adds nothing once `minlen` exceeds the
collaborator's maximum dictionary match length. -/
theorem famDictFold_of_minlen_gt (dictFound : Bool) (dictTab : ℕ → ℕ)
    (kInvalid distBase minlen maxLength : ℕ) (ms : List BMatch)
    (h : min kMaxDictionaryMatchLen maxLength < minlen) :
    famDictFold dictFound dictTab kInvalid distBase minlen maxLength ms = ms := by
  unfold famDictFold
  split_ifs with h1
  · have hz : min kMaxDictionaryMatchLen maxLength + 1 - minlen = 0 := by omega
    rw [hz]
    rfl
  · rfl

/-- C5: for the block hashers, if `FindAllMatches` ends its two scan phases
with `best_len > kMaxZopfliLen = 325`, then exactly one match sits in the
caller's array on return, and its length is `best_len` — the maximum match
length found by the scan (every recorded match sets `best_len` to its
length, and a match beyond 325 rewinds the output to its start).  The
dictionary pass adds nothing: its `minlen = best_len + 1` exceeds
`kMaxDictionaryMatchLen`. -/
theorem blockFindAllMatches_zopfli_rewind (bucketBits blockBits : ℕ)
    (num : ℕ → ℕ) (buckets : ℕ → ℕ → ℤ) (dictFound : Bool) (dictTab : ℕ → ℕ) (kInvalid : ℕ)
    (data : ℕ → ℕ) (ringLog curIx maxLength maxBackward : ℕ) (numMatchesIn : ℕ)
    (hbig : kMaxZopfliLen < (blockFindAllMatches bucketBits blockBits num buckets dictFound
      dictTab kInvalid data ringLog curIx maxLength maxBackward numMatchesIn).bestLen) :
    ∃ m : BMatch,
      (blockFindAllMatches bucketBits blockBits num buckets dictFound dictTab kInvalid data
        ringLog curIx maxLength maxBackward numMatchesIn).matchList = [m] ∧
      m.length = (blockFindAllMatches bucketBits blockBits num buckets dictFound dictTab
        kInvalid data ringLog curIx maxLength maxBackward numMatchesIn).bestLen := by
  have hbig2 : kMaxZopfliLen < (famBucketScan data ringLog curIx (curIx % 2 ^ ringLog)
      maxLength maxBackward blockBits
      (buckets (hashBytesBlock bucketBits (load32 data (curIx % 2 ^ ringLog))))
      (num (hashBytesBlock bucketBits (load32 data (curIx % 2 ^ ringLog))) % 2 ^ 16 -
        (if 2 ^ blockBits
            < num (hashBytesBlock bucketBits (load32 data (curIx % 2 ^ ringLog))) % 2 ^ 16
          then num (hashBytesBlock bucketBits (load32 data (curIx % 2 ^ ringLog))) % 2 ^ 16
            - 2 ^ blockBits
          else 0))
      (num (hashBytesBlock bucketBits (load32 data (curIx % 2 ^ ringLog))) % 2 ^ 16 - 1)
      (famBackScan data ringLog curIx (curIx % 2 ^ ringLog) maxLength maxBackward
        (curIx - 64) curIx (curIx - 1) 1 []).1
      (famBackScan data ringLog curIx (curIx % 2 ^ ringLog) maxLength maxBackward
        (curIx - 64) curIx (curIx - 1) 1 []).2).1 := hbig
  obtain ⟨m, hm, hl⟩ := famBucketScan_single data ringLog curIx (curIx % 2 ^ ringLog)
    maxLength maxBackward blockBits
    (buckets (hashBytesBlock bucketBits (load32 data (curIx % 2 ^ ringLog))))
    (num (hashBytesBlock bucketBits (load32 data (curIx % 2 ^ ringLog))) % 2 ^ 16 -
      (if 2 ^ blockBits
          < num (hashBytesBlock bucketBits (load32 data (curIx % 2 ^ ringLog))) % 2 ^ 16
        then num (hashBytesBlock bucketBits (load32 data (curIx % 2 ^ ringLog))) % 2 ^ 16
          - 2 ^ blockBits
        else 0))
    (num (hashBytesBlock bucketBits (load32 data (curIx % 2 ^ ringLog))) % 2 ^ 16 - 1)
    (famBackScan data ringLog curIx (curIx % 2 ^ ringLog) maxLength maxBackward
      (curIx - 64) curIx (curIx - 1) 1 []).1
    (famBackScan data ringLog curIx (curIx % 2 ^ ringLog) maxLength maxBackward
      (curIx - 64) curIx (curIx - 1) 1 []).2
    (famBackScan_single data ringLog curIx (curIx % 2 ^ ringLog) maxLength maxBackward
      (curIx - 64) curIx (curIx - 1) 1 []
      (fun hc => absurd hc (by norm_num [kMaxZopfliLen])))
    hbig2
  have hfold := famDictFold_of_minlen_gt dictFound dictTab kInvalid maxBackward
    (max 4 ((famBucketScan data ringLog curIx (curIx % 2 ^ ringLog) maxLength maxBackward
      blockBits (buckets (hashBytesBlock bucketBits (load32 data (curIx % 2 ^ ringLog))))
      (num (hashBytesBlock bucketBits (load32 data (curIx % 2 ^ ringLog))) % 2 ^ 16 -
        (if 2 ^ blockBits
            < num (hashBytesBlock bucketBits (load32 data (curIx % 2 ^ ringLog))) % 2 ^ 16
          then num (hashBytesBlock bucketBits (load32 data (curIx % 2 ^ ringLog))) % 2 ^ 16
            - 2 ^ blockBits
          else 0))
      (num (hashBytesBlock bucketBits (load32 data (curIx % 2 ^ ringLog))) % 2 ^ 16 - 1)
      (famBackScan data ringLog curIx (curIx % 2 ^ ringLog) maxLength maxBackward
        (curIx - 64) curIx (curIx - 1) 1 []).1
      (famBackScan data ringLog curIx (curIx % 2 ^ ringLog) maxLength maxBackward
        (curIx - 64) curIx (curIx - 1) 1 []).2).1 + 1))
    maxLength
    ((famBucketScan data ringLog curIx (curIx % 2 ^ ringLog) maxLength maxBackward blockBits
      (buckets (hashBytesBlock bucketBits (load32 data (curIx % 2 ^ ringLog))))
      (num (hashBytesBlock bucketBits (load32 data (curIx % 2 ^ ringLog))) % 2 ^ 16 -
        (if 2 ^ blockBits
            < num (hashBytesBlock bucketBits (load32 data (curIx % 2 ^ ringLog))) % 2 ^ 16
          then num (hashBytesBlock bucketBits (load32 data (curIx % 2 ^ ringLog))) % 2 ^ 16
            - 2 ^ blockBits
          else 0))
      (num (hashBytesBlock bucketBits (load32 data (curIx % 2 ^ ringLog))) % 2 ^ 16 - 1)
      (famBackScan data ringLog curIx (curIx % 2 ^ ringLog) maxLength maxBackward
        (curIx - 64) curIx (curIx - 1) 1 []).1
      (famBackScan data ringLog curIx (curIx % 2 ^ ringLog) maxLength maxBackward
        (curIx - 64) curIx (curIx - 1) 1 []).2).2)
    (by
      unfold kMaxDictionaryMatchLen kMaxZopfliLen at *
      omega)
  exact ⟨m, hfold.trans hm, hl⟩

set_option maxRecDepth 8000 in
theorem blockFindAllMatches_zopfli_rewind_witness :
    kMaxZopfliLen < (blockFindAllMatches 14 4 (fun _ => 0) (fun _ _ => -1) false (fun _ => 0) 0
      (fun _ => 0) 12 400 326 400 7).bestLen ∧
    ∃ m : BMatch,
      (blockFindAllMatches 14 4 (fun _ => 0) (fun _ _ => -1) false (fun _ => 0) 0
        (fun _ => 0) 12 400 326 400 7).matchList = [m] ∧
      m.length = (blockFindAllMatches 14 4 (fun _ => 0) (fun _ _ => -1) false (fun _ => 0) 0
        (fun _ => 0) 12 400 326 400 7).bestLen :=
  ⟨by decide, blockFindAllMatches_zopfli_rewind 14 4 (fun _ => 0) (fun _ _ => -1) false
    (fun _ => 0) 0 (fun _ => 0) 12 400 326 400 7 (by decide)⟩

end BrotliHash
